import Mathlib

/-!
Verification of the SwarmDesk UML generator's analysis pipeline
(`uml-generator.js` and `tui.js`).

The JavaScript sources are embedded shallowly:

* pure string processing (the regex-based extraction, the complexity
  counter, the path helpers) is translated into executable Lean functions
  over `String` / `List Char`;
* the filesystem is an explicit tree value (`FSRoot`); `readdirSync` on an
  unreadable directory, and `readFileSync` on an unreadable file, become
  `Except`/`Option` failures, mirroring thrown exceptions;
* calls into external components (the TypeScript parser `ts.createSourceFile`,
  the `git` subprocess, `JSON.parse`, `Math.random`, `Date.now`) are oracle
  parameters collected in an `Env` record; the repository code consuming the
  oracle results is translated faithfully.

Machine integers do not occur in the analysed code paths; all counts are
natural numbers.
-/
set_option autoImplicit false

set_option maxRecDepth 100000

/-- Models the JavaScript regex class `\w`, i.e. `[A-Za-z0-9_]`
(ASCII letters, digits, underscore). -/
def jsWordChar (c : Char) : Bool :=
  (('a' ≤ c ∧ c ≤ 'z') ∨ ('A' ≤ c ∧ c ≤ 'Z') ∨ ('0' ≤ c ∧ c ≤ '9') ∨ c = '_')

/-- Models the JavaScript regex class `\s` restricted to the ASCII whitespace
characters (space, tab, newline, carriage return, vertical tab, form feed). -/
def jsSpace (c : Char) : Bool :=
  c = ' ' ∨ c = '\t' ∨ c = '\n' ∨ c = '\r' ∨ c = Char.ofNat 11 ∨ c = Char.ofNat 12

/-- A single-quote character, built numerically so the file contains no
apostrophe tokens. -/
def sqChar : Char := Char.ofNat 39

/-- The single-quote character as a one-character string. -/
def sqStr : String := String.mk [sqChar]

/-- Boolean prefix test on character lists (used instead of `String.startsWith`
so that all string functions reduce uniformly). -/
def pfxOf : List Char → List Char → Bool
  | [], _ => true
  | _ :: _, [] => false
  | a :: p, b :: s => a == b && pfxOf p s

/-- Models JavaScript `String.prototype.includes`: `hay` contains `needle`
as a contiguous substring. -/
def containsSub (hay needle : String) : Bool :=
  hay.data.tails.any (fun t => pfxOf needle.data t)

/-- Models JavaScript `String.prototype.startsWith`. -/
def strStarts (s p : String) : Bool :=
  pfxOf p.data s.data

/-- Boolean suffix test. -/
def sfxOf (p s : List Char) : Bool :=
  pfxOf p.reverse s.reverse

/-- Models JavaScript `String.prototype.endsWith`. -/
def strEnds (s p : String) : Bool :=
  sfxOf p.data s.data

/-- Models JavaScript `String.prototype.split` with a single-character-class
regex separator: adjacent separators produce empty segments, and the result is
always non-empty. -/
def splitOnPred (p : Char → Bool) : List Char → List (List Char)
  | [] => [[]]
  | c :: r =>
    if p c then [] :: splitOnPred p r
    else
      match splitOnPred p r with
      | [] => [[c]]
      | seg :: rest => (c :: seg) :: rest

/-- Models JavaScript `String.prototype.trim` (drop leading and trailing
whitespace). -/
def jsTrim (s : String) : String :=
  String.mk (((s.data.dropWhile jsSpace).reverse.dropWhile jsSpace).reverse)

/-- Last element of a list, with default. -/
def lastD (l : List String) (d : String) : String :=
  l.getLastD d

/-- Splits a path at slashes (always a non-empty list of segments). -/
def splitSlash (p : String) : List String :=
  (splitOnPred (fun c => c = '/') p.data).map String.mk

/-- Joins segments with slashes (inverse of `splitSlash` on canonical
inputs). -/
def joinSlash : List String → String
  | [] => ""
  | [x] => x
  | x :: r => x ++ "/" ++ joinSlash r

/-- Models Node `path.extname` for POSIX paths: the suffix of the last path
segment starting at its last dot, empty when the last segment has no dot, is
a bare `.` or `..`, or starts with its only dot. -/
def pathExtname (p : String) : String :=
  let b := lastD (splitSlash p) ""
  if b = "." ∨ b = ".." then ""
  else
    let d := b.data
    match d.reverse.findIdx? (fun c => c = '.') with
    | none => ""
    | some j =>
      let i := d.length - 1 - j
      if i = 0 then "" else String.mk (d.drop i)

/-- Models Node `path.basename(p, ext)`: the last path segment, with `ext`
stripped from its end when `ext` is non-empty, is a proper suffix, and is not
the whole segment. -/
def pathBasename (p ext : String) : String :=
  let b := lastD (splitSlash p) ""
  if ext ≠ "" ∧ ext ≠ b ∧ sfxOf ext.data b.data then
    String.mk (b.data.take (b.data.length - ext.data.length))
  else b

/-- Models Node `path.dirname` for the relative, slash-separated, non-empty
paths produced by the discovery walk: everything before the last slash, or
`"."` when the path has no slash. -/
def pathDirname (p : String) : String :=
  let parts := splitSlash p
  if parts.length ≤ 1 then "." else joinSlash parts.dropLast

/-- Models Node `path.relative(root, full)` for the full paths built by the
walk, which always have the shape `root ++ "/" ++ rel`: strips the root
prefix. -/
def relativeTo (root full : String) : String :=
  if pfxOf (root ++ "/").data full.data then
    String.mk (full.data.drop (root.data.length + 1))
  else full

/-- Models JavaScript string concatenation used to build walk paths
(`path.join(currentDir, entry.name)` for our slash-separated inputs). -/
def pathJoin (a b : String) : String :=
  a ++ "/" ++ b

/-! ### Cyclomatic-complexity keyword counting

`analyzeFile` computes
`(content.match(/\b(if|else|for|while|switch|case|catch)\b/g) || []).length`.
`scanKWAux` is the left-to-right global regex scan (a match consumes the
matched keyword); `cntPos` is the specification-style count of all positions
at which a keyword occurs as a whole word. -/
/-- The fixed keyword set of the complexity regex, in alternation order. -/
def kwStrs : List String := ["if", "else", "for", "while", "switch", "case", "catch"]

/-- The keywords as character lists. -/
def kwList : List (List Char) := kwStrs.map String.data

/-- The trailing `\b` of the complexity regex: after the keyword there is
either end of input or a non-word character. -/
def boundaryAfterKw (k l : List Char) : Bool :=
  match l.drop k.length with
  | [] => true
  | c :: _ => !(jsWordChar c)

/-- The keyword (if any) that matches at the head of `l` with a trailing word
boundary; the leading word boundary is the caller's concern. -/
def kwAt (l : List Char) : Option (List Char) :=
  kwList.find? (fun k => pfxOf k l && boundaryAfterKw k l)

/-- Fuel-driven left-to-right scan modelling `String.prototype.match` with the
global complexity regex: at each position with a leading word boundary, a
whole-word keyword match counts once and scanning resumes after it. The fuel
is an upper bound on the number of steps; `countKeywords` supplies enough. -/
def scanKWAux : Nat → Bool → List Char → Nat
  | 0, _, _ => 0
  | _ + 1, _, [] => 0
  | fuel + 1, prevW, c :: rest =>
    if prevW then scanKWAux fuel (jsWordChar c) rest
    else
      match kwAt (c :: rest) with
      | some k => 1 + scanKWAux fuel true ((c :: rest).drop k.length)
      | none => scanKWAux fuel (jsWordChar c) rest

/-- Models the complexity metric of `analyzeFile`: the number of matches of
`/\b(if|else|for|while|switch|case|catch)\b/g` in the raw text. -/
def countKeywords (s : String) : Nat :=
  scanKWAux s.data.length false s.data

/-- Specification-style count: the number of positions at which one of the
keywords occurs as a whole word (`prevW` says whether the character before
the current position is a word character). -/
def cntPos : Bool → List Char → Nat
  | _, [] => 0
  | prevW, c :: rest =>
    (if !prevW && (kwAt (c :: rest)).isSome then 1 else 0) + cntPos (jsWordChar c) rest

/-- The count of whole-word keyword occurrences anywhere in the text. -/
def wholeWordCount (s : String) : Nat :=
  cntPos false s.data

/-! ### Regex matching combinators

A matcher maps an input suffix to the list of possible remainders after a
match, ordered by the JavaScript engine preference (greedy quantifiers
longest-first, alternatives in source order). The head of the final list is
the remainder the engine commits to. -/
/-- Left brace character (written numerically). -/
def lbrace : Char := Char.ofNat 123

/-- Right brace character (written numerically). -/
def rbrace : Char := Char.ofNat 125

/-- Matches a literal string. -/
def mlit (w : String) (s : List Char) : List (List Char) :=
  if pfxOf w.data s then [s.drop w.data.length] else []

/-- Matches a literal character. -/
def mlitc (ch : Char) (s : List Char) : List (List Char) :=
  match s with
  | c :: r => if c = ch then [r] else []
  | [] => []

/-- Sequencing of matchers (all combinations, preference order preserved). -/
def mseq (a b : List Char → List (List Char)) (s : List Char) : List (List Char) :=
  (a s).flatMap b

/-- Ordered alternation. -/
def malt (a b : List Char → List (List Char)) (s : List Char) : List (List Char) :=
  a s ++ b s

/-- Greedy option: matching is preferred over skipping. -/
def mopt (a : List Char → List (List Char)) (s : List Char) : List (List Char) :=
  a s ++ [s]

/-- Greedy one-or-more repetition of a character class, longest match
first. -/
def mchars1 (p : Char → Bool) : List Char → List (List Char)
  | [] => []
  | c :: r => if p c then mchars1 p r ++ [r] else []

/-- Greedy zero-or-more repetition of a character class, longest match
first. -/
def mchars0 (p : Char → Bool) (s : List Char) : List (List Char) :=
  mchars1 p s ++ [s]

/-! ### Import extraction

Models the `analyzeFile` loop over
`/import\s+(?:{[^}]+}|[\w]+|\*\s+as\s+\w+)?\s*(?:,\s*{[^}]+})?\s*from\s+['"]([^'"]+)['"]/g`
(braces and quotes written symbolically here). -/
/-- The regex class matching either quote character. -/
def isQuote (c : Char) : Bool :=
  c = sqChar ∨ c = '"'

/-- The brace-enclosed named-import group of the import regex. -/
def importBraces : List Char → List (List Char) :=
  mseq (mlitc lbrace) (mseq (mchars1 (fun c => !(c = rbrace))) (mlitc rbrace))

/-- The star-as namespace-import group of the import regex. -/
def importStarAs : List Char → List (List Char) :=
  mseq (mlitc '*') (mseq (mchars1 jsSpace)
    (mseq (mlit "as") (mseq (mchars1 jsSpace) (mchars1 jsWordChar))))

/-- Everything of the import regex before the quoted capture group. -/
def importPre : List Char → List (List Char) :=
  mseq (mlit "import") <|
  mseq (mchars1 jsSpace) <|
  mseq (mopt (malt importBraces (malt (mchars1 jsWordChar) importStarAs))) <|
  mseq (mchars0 jsSpace) <|
  mseq (mopt (mseq (mlitc ',') (mseq (mchars0 jsSpace) importBraces))) <|
  mseq (mchars0 jsSpace) <|
  mseq (mlit "from") (mchars1 jsSpace)

/-- The quoted capture group of the import regex: an opening quote, a
non-empty greedy run of non-quote characters (the capture), a closing
quote. Returns the capture and the remainder after the match. -/
def captureSpec (s : List Char) : Option (String × List Char) :=
  match s with
  | q :: rest =>
    if isQuote q then
      let cap := rest.takeWhile (fun c => !(isQuote c))
      match rest.drop cap.length with
      | q2 :: r2 => if cap ≠ [] ∧ isQuote q2 then some (String.mk cap, r2) else none
      | [] => none
    else none
  | [] => none

/-- The import regex applied at one position: the first remainder (in engine
preference order) whose continuation completes the quoted group wins. -/
def importAt (l : List Char) : Option (String × List Char) :=
  (importPre l).findSome? captureSpec

/-- Fuel-driven global scan for import matches; returns the captured module
specifiers in match order. Every match consumes at least one character, so
`scanImports` supplies sufficient fuel. -/
def scanImportsAux : Nat → List Char → List String
  | 0, _ => []
  | _ + 1, [] => []
  | fuel + 1, c :: rest =>
    match importAt (c :: rest) with
    | some (cap, r) => cap :: scanImportsAux fuel r
    | none => scanImportsAux fuel rest

/-- All import specifiers captured by the global import regex, in match
order. -/
def scanImports (s : String) : List String :=
  scanImportsAux s.data.length s.data

/-- Models `importPath.startsWith(".") || importPath.startsWith("/")` (the
local-import test of `analyzeFile`). -/
def isLocalImport (sp : String) : Bool :=
  strStarts sp "." || strStarts sp "/"

/-- Models `path.basename(importPath, path.extname(importPath))`. -/
def depName (sp : String) : String :=
  pathBasename sp (pathExtname sp)

/-- The dependency-list accumulation loop of `analyzeFile`: retain local
specifiers, reduce to base names, skip duplicates. -/
def buildDeps (specs : List String) : List String :=
  specs.foldl
    (fun acc sp =>
      if isLocalImport sp then
        let d := depName sp
        if d ∈ acc then acc else acc ++ [d]
      else acc)
    []

/-- Specification-side deduplication keeping the first occurrence of each
element, with an explicit already-seen accumulator. -/
def dedupKeepFirstAux (seen : List String) : List String → List String
  | [] => []
  | x :: xs =>
    if x ∈ seen then dedupKeepFirstAux seen xs
    else x :: dedupKeepFirstAux (seen ++ [x]) xs

/-- Specification-side dependency pipeline: keep the local specifiers, reduce
each to its base name, deduplicate preserving first-seen order. -/
def depsSpec (specs : List String) : List String :=
  dedupKeepFirstAux [] ((specs.filter isLocalImport).map depName)

/-! ### Fallback structural regexes of `analyzeFile` -/
/-- Captures a greedy non-empty word run, returning the capture and the
remainder. -/
def captureWord (s : List Char) : Option (String × List Char) :=
  let w := s.takeWhile jsWordChar
  if w = [] then none else some (String.mk w, s.drop w.length)

/-- Everything of `/export\s+(?:default\s+)?(?:function|const|class)\s+(\w+)/`
before the capture group. -/
def exportPre : List Char → List (List Char) :=
  mseq (mlit "export") <|
  mseq (mchars1 jsSpace) <|
  mseq (mopt (mseq (mlit "default") (mchars1 jsSpace))) <|
  mseq (malt (mlit "function") (malt (mlit "const") (mlit "class"))) (mchars1 jsSpace)

/-- The export regex applied at one position; yields the captured
identifier. -/
def exportAt (l : List Char) : Option String :=
  (exportPre l).findSome? (fun r => (captureWord r).map Prod.fst)

/-- Generic first-match scan for a non-global regex: try each start position
left to right, return the first success. -/
def firstMatchAux (f : List Char → Option String) : List Char → Option String
  | [] => f []
  | c :: rest =>
    match f (c :: rest) with
    | some x => some x
    | none => firstMatchAux f rest

/-- Models `content.match(/export\s+(?:default\s+)?(?:function|const|class)\s+(\w+)/)`,
returning the captured identifier of the first match. -/
def exportMatch (s : String) : Option String :=
  firstMatchAux exportAt s.data

/-- Everything of `/class\s+\w+\s+extends\s+(\w+)/` before the capture
group. -/
def extendsPre : List Char → List (List Char) :=
  mseq (mlit "class") <|
  mseq (mchars1 jsSpace) <|
  mseq (mchars1 jsWordChar) <|
  mseq (mchars1 jsSpace) <|
  mseq (mlit "extends") (mchars1 jsSpace)

/-- The extends regex applied at one position. -/
def extendsAt (l : List Char) : Option String :=
  (extendsPre l).findSome? (fun r => (captureWord r).map Prod.fst)

/-- Models `content.match(/class\s+\w+\s+extends\s+(\w+)/)`, returning the
captured superclass name of the first match. -/
def extendsMatch (s : String) : Option String :=
  firstMatchAux extendsAt s.data

/-- The capture class `[\w,\s]` of the implements regex. -/
def implementsClassChar (c : Char) : Bool :=
  jsWordChar c || c = ',' || jsSpace c

/-- Everything of `/class\s+\w+\s+implements\s+([\w,\s]+)/` before the
capture group. -/
def implementsPre : List Char → List (List Char) :=
  mseq (mlit "class") <|
  mseq (mchars1 jsSpace) <|
  mseq (mchars1 jsWordChar) <|
  mseq (mchars1 jsSpace) <|
  mseq (mlit "implements") (mchars1 jsSpace)

/-- The implements regex applied at one position; captures a greedy non-empty
run of word, comma and whitespace characters. -/
def implementsAt (l : List Char) : Option String :=
  (implementsPre l).findSome? (fun r =>
    let w := r.takeWhile implementsClassChar
    if w = [] then none else some (String.mk w))

/-- Models `content.match(/class\s+\w+\s+implements\s+([\w,\s]+)/)`. -/
def implementsMatch (s : String) : Option String :=
  firstMatchAux implementsAt s.data

/-- Models the split-and-trim of the implements capture:
`implementsMatch[1].split(",").map(s => s.trim())`. -/
def splitImplements (cap : String) : List String :=
  (splitOnPred (fun c => c = ',') cap.data).map (fun seg => jsTrim (String.mk seg))

/-- First alternative `function\s+\w+` of the method regex. -/
def methodAltA : List Char → List (List Char) :=
  mseq (mlit "function") (mseq (mchars1 jsSpace) (mchars1 jsWordChar))

/-- Second alternative `const\s+\w+\s*=\s*(?:async\s+)?\([^)]*\)\s*=>` of the
method regex. -/
def methodAltB : List Char → List (List Char) :=
  mseq (mlit "const") <|
  mseq (mchars1 jsSpace) <|
  mseq (mchars1 jsWordChar) <|
  mseq (mchars0 jsSpace) <|
  mseq (mlitc '=') <|
  mseq (mchars0 jsSpace) <|
  mseq (mopt (mseq (mlit "async") (mchars1 jsSpace))) <|
  mseq (mlitc '(') <|
  mseq (mchars0 (fun c => !(c = ')'))) <|
  mseq (mlitc ')') <|
  mseq (mchars0 jsSpace) (mlit "=>")

/-- Third alternative `^\s*\w+\s*\([^)]*\)\s*{` of the method regex (the
leading multiline anchor is handled by the scanner). -/
def methodAltC : List Char → List (List Char) :=
  mseq (mchars0 jsSpace) <|
  mseq (mchars1 jsWordChar) <|
  mseq (mchars0 jsSpace) <|
  mseq (mlitc '(') <|
  mseq (mchars0 (fun c => !(c = ')'))) <|
  mseq (mlitc ')') <|
  mseq (mchars0 jsSpace) (mlitc lbrace)

/-- The whole method regex at one position: alternatives in source order, the
anchored third alternative only at a line start. Returns the matched text and
the remainder. -/
def methodMatchAt (lineStart : Bool) (l : List Char) : Option (String × List Char) :=
  match malt methodAltA (malt methodAltB (fun s => if lineStart then methodAltC s else [])) l with
  | [] => none
  | r :: _ => some (String.mk (l.take (l.length - r.length)), r)

/-- Fuel-driven global scan of the method regex (flags `gm`), tracking whether
the current position is a line start for the `^` anchor. -/
def scanMethodsAux : Nat → Bool → List Char → List String
  | 0, _, _ => []
  | _ + 1, _, [] => []
  | fuel + 1, lineStart, c :: rest =>
    match methodMatchAt lineStart (c :: rest) with
    | some (m, r) =>
      let ls := match m.data.getLast? with
        | some ch => ch = '\n'
        | none => lineStart
      m :: scanMethodsAux fuel ls r
    | none => scanMethodsAux fuel (c = '\n') rest

/-- All matches of the global method regex, in order. -/
def scanMethods (s : String) : List String :=
  scanMethodsAux s.data.length true s.data

/-- Models the method-name extraction
`m.trim().split(/[\s(]/)[1]` with fallback `method_<index>` when the segment
is missing or empty. -/
def methodNameOf (m : String) (i : Nat) : String :=
  let parts := splitOnPred (fun c => jsSpace c || c = '(') (jsTrim m).data
  match parts.get? 1 with
  | some seg => if seg = [] then "method_" ++ toString i else String.mk seg
  | none => "method_" ++ toString i

/-! ### Data model

Record structures mirroring the JavaScript object shapes. JavaScript fields
that are simply absent on some records (`gitMetrics`/`testMetrics` on stubs,
`isExternal` on real records) are modelled as `Option` values (`none` for
absent) or as `Bool` (`false` for absent, matching how consumers read the
field as falsy). -/
/-- A method entry `{name, visibility, type}`. -/
structure MethodRec where
  name : String
  visibility : String
  type : String
  deriving DecidableEq, Repr

/-- The `complexityMetrics` block of a class record. -/
structure ComplexityMetrics where
  cyclomaticComplexity : Nat
  cognitiveComplexity : Nat
  nestingDepth : Nat
  linesOfCode : Nat
  methodCount : Nat
  threatLevel : String
  threatColor : String
  label : String
  suggestions : List String
  deriving DecidableEq, Repr

/-- The `coverageMetrics` block. -/
structure CoverageMetrics where
  hasCoverage : Bool
  overallCoverage : Nat
  deriving DecidableEq, Repr

/-- The `metrics` block (the visualizer compatibility contract). -/
structure MetricsRec where
  lines : Nat
  complexity : Nat
  methodCount : Nat
  coverage : Nat
  deriving DecidableEq, Repr

/-- The last-commit summary inside the git metrics. -/
structure LastCommit where
  hash : String
  author : String
  email : String
  date : String
  message : String
  daysAgo : Int
  deriving DecidableEq, Repr

/-- The git metrics of one file. -/
structure GitMetrics where
  commitCount : Nat
  lastCommit : Option LastCommit
  isGitTracked : Bool
  deriving DecidableEq, Repr

/-- The `testMetrics` block. -/
structure TestMetrics where
  «exists» : Bool
  coverage : Nat
  deriving DecidableEq, Repr

/-- One class record of the output document. -/
structure ClassRecord where
  id : String
  name : String
  type : String
  subtype : String
  package : String
  filePath : String
  methods : List MethodRec
  fields : List String
  dependencies : List String
  «extends» : List String
  «implements» : List String
  complexity : Nat
  complexityMetrics : ComplexityMetrics
  coverageMetrics : CoverageMetrics
  metrics : MetricsRec
  gitMetrics : Option GitMetrics
  testMetrics : Option TestMetrics
  isExternal : Bool
  deriving DecidableEq, Repr

/-- One package record of the output document. -/
structure PackageRecord where
  id : String
  name : String
  path : String
  classes : List String
  deriving DecidableEq, Repr

/-- The project metadata block. -/
structure ProjectMeta where
  name : String
  description : String
  language : String
  deriving DecidableEq, Repr

/-- The whole output document. -/
structure Snapshot where
  version : String
  generated : String
  project : ProjectMeta
  packages : List PackageRecord
  classes : List ClassRecord
  deriving DecidableEq, Repr

/-! ### The TypeScript parse, modelled over an oracle syntax tree

`parseWithTypeScript` calls the external `typescript` library
(`ts.createSourceFile`) and then walks the resulting tree collecting class
and interface declarations in pre-order. The external parse itself is an
oracle (`Env.ast` below) that yields the pre-order sequence of declaration
nodes; the per-node processing of `parseWithTypeScript` (heritage clauses,
method members, the name guard) is translated here. -/
/-- One heritage clause of a declaration: its keyword kind and the source
texts of its type expressions. -/
structure HeritageClause where
  isExtendsKw : Bool
  types : List String
  deriving DecidableEq, Repr

/-- A declaration node found by the tree walk (pre-order). A class node
carries its method-declaration member names. -/
inductive DeclNode where
  | classDecl (name : Option String) (heritage : List HeritageClause) (methodNames : List String)
  | ifaceDecl (name : Option String) (heritage : List HeritageClause)
  deriving DecidableEq, Repr

/-- A class summary produced by `parseWithTypeScript`. -/
structure TsClass where
  name : String
  «extends» : Option String
  «implements» : List String
  methods : List MethodRec
  deriving DecidableEq, Repr

/-- An interface summary produced by `parseWithTypeScript` (collected but
never consumed by `analyzeFile`). -/
structure TsIface where
  name : String
  «extends» : List String
  deriving DecidableEq, Repr

/-- The result of `parseWithTypeScript`. -/
structure TsResult where
  classes : List TsClass
  interfaces : List TsIface
  deriving DecidableEq, Repr

/-- Processes one heritage clause of a class:
`classInfo.extends = clause.types[0].expression.getText(...)` dereferences
`types[0]`, so an extends clause with no types throws (a `TypeError`), which
the per-file try/catch of the callers later absorbs. -/
def applyClassHeritage (info : TsClass) (cl : HeritageClause) : Except Unit TsClass :=
  if cl.isExtendsKw then
    match cl.types.head? with
    | some t => .ok { info with «extends» := some t }
    | none => .error ()
  else .ok { info with «implements» := cl.types }

/-- Processes one declaration node of the tree walk. Unnamed declarations are
skipped (the `node.name` guard); interfaces are only collected for TypeScript
files. -/
def processDecl (isTS : Bool) (acc : TsResult) : DeclNode → Except Unit TsResult
  | .classDecl none _ _ => .ok acc
  | .classDecl (some nm) her ms => do
    let withHer ← her.foldlM applyClassHeritage
      { name := nm, «extends» := none, «implements» := [], methods := [] }
    let info := { withHer with
      methods := ms.map (fun m => { name := m, visibility := "public", type := "method" }) }
    .ok { acc with classes := acc.classes ++ [info] }
  | .ifaceDecl none _ => .ok acc
  | .ifaceDecl (some nm) her =>
    if isTS then
      let info := her.foldl
        (fun i cl => if cl.isExtendsKw then { i with «extends» := cl.types } else i)
        ({ name := nm, «extends» := [] } : TsIface)
      .ok { acc with interfaces := acc.interfaces ++ [info] }
    else .ok acc

/-- Models `parseWithTypeScript`: folds the pre-order declaration sequence of
the oracle parse into class/interface summaries. -/
def parseWithTypeScript (isTS : Bool) (nodes : List DeclNode) : Except Unit TsResult :=
  nodes.foldlM (processDecl isTS) { classes := [], interfaces := [] }

/-! ### Filesystem model -/
/-- A filesystem entry: a file with its content (`none` when reading it
throws), or a directory with a readability flag (`false` when `readdirSync`
on it throws) and its entries in native enumeration order. -/
inductive FSNode where
  | file (name : String) (content : Option String)
  | dir (name : String) (readable : Bool) (entries : List FSNode)

/-- The project root: its path string, the readability of the root directory
itself, and its entries. -/
structure FSRoot where
  path : String
  readable : Bool
  entries : List FSNode

/-- The name of an entry. -/
def nodeName : FSNode → String
  | .file n _ => n
  | .dir n _ _ => n

/-- Finds a directory entry by name. -/
def findEntry (name : String) (es : List FSNode) : Option FSNode :=
  es.find? (fun e => nodeName e = name)

/-- Resolves a relative segment path inside a directory listing. Only the
listing readability is modelled by the `readable` flag; plain path resolution
(`existsSync`, `readFileSync`) traverses regardless. -/
def lookupSegs : List FSNode → List String → Option FSNode
  | _, [] => none
  | es, s :: rest =>
    match rest with
    | [] => findEntry s es
    | _ :: _ =>
      match findEntry s es with
      | some (FSNode.dir _ _ children) => lookupSegs children rest
      | _ => none

/-- Resolves a full path under the project root. -/
def resolvePath (fs : FSRoot) (p : String) : Option FSNode :=
  if strStarts p (fs.path ++ "/") then
    lookupSegs fs.entries (splitSlash (relativeTo fs.path p))
  else none

/-- Models `fs.existsSync`. -/
def fsExists (fs : FSRoot) (p : String) : Bool :=
  (resolvePath fs p).isSome

/-- Models `fs.readFileSync(p, "utf8")`: `none` when the call throws (missing
path, directory, unreadable file). -/
def readFileSyncM (fs : FSRoot) (p : String) : Option String :=
  match resolvePath fs p with
  | some (.file _ (some c)) => some c
  | _ => none

/-! ### File discovery (`findSourceFiles`) -/
/-- The fixed source-extension set of the discovery walk. -/
def sourceExts : List String := [".js", ".jsx", ".ts", ".tsx", ".mjs"]

mutual
/-- Processes one non-excluded entry of the walk: a matching file contributes
its full path, a directory is recursed into — where `readdirSync` throws on
an unreadable directory, modelled by `Except.error`. -/
def walkEntry (includes excludes : List String) (root : String) (rp : String) :
    FSNode → Except Unit (List String)
  | .file n _ =>
    .ok (if sourceExts.contains (pathExtname n) then
          (if includes.isEmpty || includes.any (fun pat => strStarts rp pat) then
            [pathJoin root rp]
          else [])
        else [])
  | .dir _ rd children =>
    if rd then walkEntries includes excludes root rp children else .error ()

/-- Walks a directory listing in order: the exclude-substring test runs
before the entry is examined (so excluded directories are never descended
into), and an error from a nested `readdirSync` aborts the whole walk. -/
def walkEntries (includes excludes : List String) (root : String) (relPfx : String) :
    List FSNode → Except Unit (List String)
  | [] => .ok []
  | e :: rest =>
    let rp := if relPfx = "" then nodeName e else relPfx ++ "/" ++ nodeName e
    if excludes.any (fun pat => containsSub rp pat) then
      walkEntries includes excludes root relPfx rest
    else do
      let a ← walkEntry includes excludes root rp e
      let b ← walkEntries includes excludes root relPfx rest
      .ok (a ++ b)
end

/-- Models `findSourceFiles(dir, includes, excludes)`. -/
def findSourceFiles (fs : FSRoot) (includes excludes : List String) :
    Except Unit (List String) :=
  if fs.readable then walkEntries includes excludes fs.path "" fs.entries
  else .error ()

/-! ### Environment oracles -/
/-- JSON fields read from a parsed `package.json` (`none` models an absent or
falsy field, over which `||` falls back to the default). -/
structure PkgMeta where
  name : Option String
  description : Option String

/-- Oracles for the external effects of the pipeline:

* `rng k` — the `k`-th value of `Math.random().toString(36).substring(2, 9)`
  drawn during the run;
* `now` — `new Date().toISOString()`;
* `ast path content` — the pre-order declaration sequence of the tree built
  by the external `ts.createSourceFile(path, content, ...)`;
* `git path` — the result of `getGitMetrics` for the file, wrapping the
  synchronous `git` subprocess round trips (with the degrade-to-empty
  failure policy already applied, as in the source);
* `pkgJson content` — the outcome of `JSON.parse` on a manifest text
  (`none` when parsing throws). -/
structure Env where
  rng : Nat → String
  now : String
  ast : String → String → List DeclNode
  git : String → GitMetrics
  pkgJson : String → Option PkgMeta

/-! ### Per-file analysis (`analyzeFile`) -/
/-- The threat-level / label band of the complexity metric. -/
def threatLevelOf (c : Nat) : String :=
  if c > 15 then "CRITICAL" else if c > 10 then "HIGH"
  else if c > 5 then "MODERATE" else "LOW"

/-- The threat-colour band of the complexity metric. -/
def threatColorOf (c : Nat) : String :=
  if c > 15 then "red" else if c > 10 then "orange"
  else if c > 5 then "yellow" else "green"

/-- Models `filePath.replace(/\.(jsx?|tsx?)$/, ".test$1")` (the capture group
excludes the dot, so the replacement drops it; `.mjs` is not matched at
all). -/
def testSiblingPath (p : String) : String :=
  if strEnds p ".jsx" then String.mk (p.data.take (p.data.length - 4)) ++ ".testjsx"
  else if strEnds p ".tsx" then String.mk (p.data.take (p.data.length - 4)) ++ ".testtsx"
  else if strEnds p ".js" then String.mk (p.data.take (p.data.length - 3)) ++ ".testjs"
  else if strEnds p ".ts" then String.mk (p.data.take (p.data.length - 3)) ++ ".testts"
  else p

/-- Whether the file extension selects the TypeScript interface pass. -/
def isTsFile (p : String) : Bool :=
  [".ts", ".tsx"].contains (pathExtname p)

/-- The needle `from 'react'` of the React heuristic (single quotes written
symbolically). -/
def fromReactNeedle : String :=
  "from " ++ sqStr ++ "react" ++ sqStr

/-- Models `analyzeFile(filePath, projectRoot)`. The argument `k` is the
index of the next unconsumed `Math.random` draw; a successful analysis
consumes exactly one draw (the record id). Errors (`readFileSync` throwing,
or the `types[0]` dereference inside the parse walk throwing) produce
`Except.error`, which callers catch per file. -/
def analyzeFile (env : Env) (fs : FSRoot) (filePath : String) (k : Nat) :
    Except Unit ClassRecord :=
  match readFileSyncM fs filePath with
  | none => .error ()
  | some content =>
    let relativePath := relativeTo fs.path filePath
    let fileName := pathBasename filePath (pathExtname filePath)
    let packagePath := pathDirname relativePath
    match parseWithTypeScript (isTsFile filePath) (env.ast filePath content) with
    | .error _ => .error ()
    | .ok tsResults =>
      let dependencies := buildDeps (scanImports content)
      let isReactComponent := (exportMatch content).isSome &&
        (containsSub content "import React" || containsSub content fromReactNeedle)
      let structural :=
        match tsResults.classes with
        | mainClass :: _ =>
          (mainClass.name, mainClass.«extends», mainClass.«implements», mainClass.methods)
        | [] =>
          let nm := (exportMatch content).getD fileName
          let ec := extendsMatch content
          let ii :=
            match implementsMatch content with
            | some cap => splitImplements cap
            | none => []
          let ms := (scanMethods content).enum.map
            (fun (p : Nat × String) =>
              ({ name := methodNameOf p.2 p.1, visibility := "public",
                 type := "method" } : MethodRec))
          (nm, ec, ii, ms)
      let name := structural.1
      let extendsClass := structural.2.1
      let implementsInterfaces := structural.2.2.1
      let methods := structural.2.2.2
      let cyclo := countKeywords content
      let gm := env.git filePath
      let lines := (splitOnPred (fun c => c = '\n') content.data).length
      .ok {
        id := "component_" ++ env.rng k
        name := name
        type := "class"
        subtype := if isReactComponent then "react_component" else "utility"
        package := if packagePath = "" then "root" else packagePath
        filePath := relativePath
        methods := methods
        fields := []
        dependencies := dependencies
        «extends» := match extendsClass with | some e => [e] | none => []
        «implements» := implementsInterfaces
        complexity := cyclo
        complexityMetrics := {
          cyclomaticComplexity := cyclo
          cognitiveComplexity := cyclo
          nestingDepth := 0
          linesOfCode := lines
          methodCount := methods.length
          threatLevel := threatLevelOf cyclo
          threatColor := threatColorOf cyclo
          label := threatLevelOf cyclo
          suggestions := [] }
        coverageMetrics := { hasCoverage := false, overallCoverage := 0 }
        metrics := { lines := lines, complexity := cyclo,
                     methodCount := methods.length, coverage := 0 }
        gitMetrics := some gm
        testMetrics := some { «exists» := fsExists fs (testSiblingPath filePath), coverage := 0 }
        isExternal := false }

/-! ### Aggregation loops -/
/-- The mutable state of the per-file loops: the class list, the
insertion-ordered package map, and the index of the next `Math.random`
draw. -/
structure LoopState where
  classes : List ClassRecord
  packages : List PackageRecord
  rngIx : Nat
  deriving DecidableEq, Repr

/-- The package display name: `pkgPath.split("/").pop() || "root"`. -/
def pkgNameOf (pkgPath : String) : String :=
  let last := lastD (splitSlash pkgPath) ""
  if last = "" then "root" else last

/-- One iteration of the `generateUML` per-file loop: analyze (catching
per-file errors), append the record, create or extend its package. -/
def genStep (env : Env) (fs : FSRoot) (st : LoopState) (filePath : String) : LoopState :=
  match analyzeFile env fs filePath st.rngIx with
  | .error _ => st
  | .ok classData =>
    let st1 : LoopState :=
      { classes := st.classes ++ [classData], packages := st.packages, rngIx := st.rngIx + 1 }
    let pkgPath := classData.package
    if st1.packages.any (fun p => p.path = pkgPath) then
      { st1 with packages := st1.packages.map (fun p =>
          if p.path = pkgPath then { p with classes := p.classes ++ [classData.id] } else p) }
    else
      { st1 with
        packages := st1.packages ++
          [{ id := "package_" ++ env.rng st1.rngIx, name := pkgNameOf pkgPath,
             path := pkgPath, classes := [classData.id] }],
        rngIx := st1.rngIx + 1 }

/-- The `generateUML` per-file loop over the discovered files. -/
def analyzeLoop (env : Env) (fs : FSRoot) (files : List String) (st : LoopState) : LoopState :=
  files.foldl (genStep env fs) st

/-- One iteration of the `runAnalysis` (TUI) per-file loop, translated from
`tui.js` independently of `genStep`; the bodies coincide because the source
loops do. -/
def tuiStep (env : Env) (fs : FSRoot) (st : LoopState) (filePath : String) : LoopState :=
  match analyzeFile env fs filePath st.rngIx with
  | .error _ => st
  | .ok classData =>
    let st1 : LoopState :=
      { classes := st.classes ++ [classData], packages := st.packages, rngIx := st.rngIx + 1 }
    let pkgPath := classData.package
    if st1.packages.any (fun p => p.path = pkgPath) then
      { st1 with packages := st1.packages.map (fun p =>
          if p.path = pkgPath then { p with classes := p.classes ++ [classData.id] } else p) }
    else
      { st1 with
        packages := st1.packages ++
          [{ id := "package_" ++ env.rng st1.rngIx, name := pkgNameOf pkgPath,
             path := pkgPath, classes := [classData.id] }],
        rngIx := st1.rngIx + 1 }

/-- The `runAnalysis` per-file loop. -/
def tuiAnalyzeLoop (env : Env) (fs : FSRoot) (files : List String) (st : LoopState) : LoopState :=
  files.foldl (tuiStep env fs) st

/-! ### External-dependency stubs (only in `generateUML`) -/
/-- Adds to the insertion-ordered set `acc` those names of `ns` that are
neither already defined nor already collected (one `Set.add` per name). -/
def addNames (definedClasses acc ns : List String) : List String :=
  ns.foldl
    (fun a p => if definedClasses.contains p || a.contains p then a else a ++ [p])
    acc

/-- The insertion-ordered set of names referenced in some record's extends or
implements but not equal to any record's name
(`externalClasses` in the source). -/
def buildExternalNames (classes : List ClassRecord) : List String :=
  let definedClasses := classes.map (fun c => c.name)
  classes.foldl
    (fun acc c => addNames definedClasses (addNames definedClasses acc c.«extends») c.«implements»)
    []

/-- The stub id: `external_` plus the name with dots replaced by underscores,
lowercased. -/
def stubIdOf (nm : String) : String :=
  "external_" ++
    String.mk ((nm.data.map (fun c => if c = '.' then '_' else c)).map Char.toLower)

/-- The synthesized stub record for one external name. -/
def mkStub (nm : String) : ClassRecord :=
  { id := stubIdOf nm
    name := nm
    type := "class"
    subtype := "external"
    package := "external"
    filePath := "external/" ++ nm
    methods := []
    fields := []
    dependencies := []
    «extends» := []
    «implements» := []
    complexity := 0
    complexityMetrics := {
      cyclomaticComplexity := 0
      cognitiveComplexity := 0
      nestingDepth := 0
      linesOfCode := 75
      methodCount := 0
      threatLevel := "EXTERNAL"
      threatColor := "gray"
      label := "External Library"
      suggestions := [] }
    coverageMetrics := { hasCoverage := false, overallCoverage := 0 }
    metrics := { lines := 75, complexity := 0, methodCount := 0, coverage := 0 }
    gitMetrics := none
    testMetrics := none
    isExternal := true }

/-- The lazily-created package shared by all stubs. -/
def externalPackage : PackageRecord :=
  { id := "package_external", name := "External Libraries", path := "external", classes := [] }

/-- One iteration of the stub-creation loop: append the stub record and
register its id in the external package. -/
def stubStep (st2 : LoopState) (nm : String) : LoopState :=
  let stub := mkStub nm
  { st2 with
    classes := st2.classes ++ [stub]
    packages := st2.packages.map (fun p =>
      if p.path = "external" then { p with classes := p.classes ++ [stub.id] } else p) }

/-- The stub-synthesis phase of `generateUML`: when unresolved names exist,
ensure the external package and append one stub per name (in set-insertion
order), registering each stub id in the external package. -/
def addStubs (st : LoopState) : LoopState :=
  let externalNames := buildExternalNames st.classes
  if externalNames.isEmpty then st
  else
    let pkgs :=
      if st.packages.any (fun p => p.path = "external") then st.packages
      else st.packages ++ [externalPackage]
    externalNames.foldl stubStep { st with packages := pkgs }

/-! ### Project metadata and snapshot assembly -/
/-- The `generateUML` metadata block: read `package.json` if present, let its
truthy `name`/`description` override the defaults, swallow read/parse
errors. -/
def genProjectMeta (env : Env) (fs : FSRoot) (initialName : String) : String × String :=
  let packageJsonPath := pathJoin fs.path "package.json"
  if fsExists fs packageJsonPath then
    match readFileSyncM fs packageJsonPath with
    | some content =>
      match env.pkgJson content with
      | some meta => (meta.name.getD initialName, meta.description.getD "Codebase visualization")
      | none => (initialName, "Codebase visualization")
    | none => (initialName, "Codebase visualization")
  else (initialName, "Codebase visualization")

/-- The `runAnalysis` metadata block of `tui.js` (textually the same logic as
`genProjectMeta`). -/
def tuiProjectMeta (env : Env) (fs : FSRoot) (initialName : String) : String × String :=
  let packageJsonPath := pathJoin fs.path "package.json"
  if fsExists fs packageJsonPath then
    match readFileSyncM fs packageJsonPath with
    | some content =>
      match env.pkgJson content with
      | some meta => (meta.name.getD initialName, meta.description.getD "Codebase visualization")
      | none => (initialName, "Codebase visualization")
    | none => (initialName, "Codebase visualization")
  else (initialName, "Codebase visualization")

/-- Models `generateUML(projectPath, projectName)`. The include/exclude
patterns are the module-level configuration the function reads. Only a
discovery failure escapes; per-file failures are caught inside the loop. -/
def generateUML (env : Env) (fs : FSRoot) (projectName : String)
    (includes excludes : List String) : Except Unit Snapshot := do
  let files ← findSourceFiles fs includes excludes
  let st := analyzeLoop env fs files { classes := [], packages := [], rngIx := 0 }
  let st1 := addStubs st
  let meta := genProjectMeta env fs projectName
  .ok {
    version := "6.0"
    generated := env.now
    project := { name := meta.1, description := meta.2, language := "JavaScript" }
    packages := st1.packages
    classes := st1.classes }

/-- Models `runAnalysis(projectPath, options)` from `tui.js`: discovery, the
per-file loop, metadata, snapshot assembly — and no stub synthesis. Returns
`none` (the source returns `null`) when no files are found. -/
def runAnalysis (env : Env) (fs : FSRoot) (includes excludes : List String) :
    Except Unit (Option Snapshot) := do
  let files ← findSourceFiles fs includes excludes
  if files.isEmpty then .ok none
  else
    let st := tuiAnalyzeLoop env fs files { classes := [], packages := [], rngIx := 0 }
    let meta := tuiProjectMeta env fs (pathBasename fs.path "")
    .ok (some {
      version := "6.0"
      generated := env.now
      project := { name := meta.1, description := meta.2, language := "JavaScript" }
      packages := st.packages
      classes := st.classes })

/-! ### Shared lemmas -/
deriving instance DecidableEq for Except

/-- The initial loop state of both per-file loops. -/
def initLoopState : LoopState :=
  { classes := [], packages := [], rngIx := 0 }

/-! ### Concrete runs used by the claim theorems -/
instance : Inhabited ClassRecord := ⟨mkStub ""⟩

instance : Inhabited Snapshot :=
  ⟨{ version := "", generated := "", project := ⟨"", "", ""⟩, packages := [], classes := [] }⟩

/-- Extracts the payload of a successful computation (fallback for the
impossible failure case). -/
def exceptGetOk {α : Type} [Inhabited α] (e : Except Unit α) : α :=
  match e with
  | .ok a => a
  | .error _ => default

/-- The module-level default include patterns of the CLI. -/
def defIncludes : List String :=
  ["src", "lib", "components", "pages", "utils", "hooks", "services"]

/-- The module-level default exclude patterns of the CLI. -/
def defExcludes : List String :=
  ["node_modules", "dist", "build", ".git", "coverage", "test", "__tests__"]

/-- An environment with an injective id stream, a fixed timestamp, empty git
history, no parseable manifest, and the given parse oracle. -/
def mkEnv (ast : String → String → List DeclNode) : Env :=
  { rng := fun k => String.mk (List.replicate k ('a'))
    now := "2026-01-01T00:00:00.000Z"
    ast := ast
    git := fun _ => { commitCount := 0, lastCommit := none, isGitTracked := false }
    pkgJson := fun _ => none }

/-- C1 run: a single source file directly in the project root. -/
def fsC1 : FSRoot :=
  { path := "root", readable := true,
    entries := [FSNode.file "A.ts" (some "export class A \x7b\x7d")] }

/-- C1 parse oracle: the file declares class `A`. -/
def envC1 : Env :=
  mkEnv (fun p _ =>
    if p = "root/A.ts" then [DeclNode.classDecl (some "A") [] []] else [])

/-- C2 run: the root contains an unreadable, non-excluded directory. -/
def fsC2 : FSRoot :=
  { path := "root", readable := true,
    entries := [FSNode.dir "secret" false []] }

/-- An environment with a trivial parse oracle. -/
def envPlain : Env := mkEnv (fun _ _ => [])

/-- C3 run: two well-formed class files and one malformed (but readable)
file. -/
def fsC3 : FSRoot :=
  { path := "root", readable := true,
    entries := [FSNode.dir "src" true
      [FSNode.file "good1.ts" (some "export class G1 \x7b\x7d"),
       FSNode.file "bad.ts" (some "this is @#% not ]] valid syntax at all"),
       FSNode.file "good2.ts" (some "export class G2 \x7b\x7d")]] }

/-- C3 parse oracle: the well-formed files declare one class each; the
error-tolerant parse of the malformed file yields no class declarations. -/
def envC3 : Env :=
  mkEnv (fun p _ =>
    if p = "root/src/good1.ts" then [DeclNode.classDecl (some "G1") [] []]
    else if p = "root/src/good2.ts" then [DeclNode.classDecl (some "G2") [] []]
    else [])

/-- C4 run: `src/X.ts` with the conventional test sibling `src/X.test.ts`,
plus an `.mjs` file with no test sibling. -/
def fsC4 : FSRoot :=
  { path := "root", readable := true,
    entries := [FSNode.dir "src" true
      [FSNode.file "X.ts" (some "export class X \x7b\x7d"),
       FSNode.file "X.test.ts" (some "")],
      FSNode.file "a.mjs" (some "")] }

/-- C5 run: two classes extending distinct undefined names whose stub ids
collide after normalization. -/
def fsC5 : FSRoot :=
  { path := "root", readable := true,
    entries := [FSNode.dir "src" true
      [FSNode.file "A.ts" (some "export class A extends Foo.Bar \x7b\x7d"),
       FSNode.file "B.ts" (some "export class B extends foo_bar \x7b\x7d")]] }

/-- C5 parse oracle. -/
def envC5 : Env :=
  mkEnv (fun p _ =>
    if p = "root/src/A.ts" then
      [DeclNode.classDecl (some "A") [{ isExtendsKw := true, types := ["Foo.Bar"] }] []]
    else if p = "root/src/B.ts" then
      [DeclNode.classDecl (some "B") [{ isExtendsKw := true, types := ["foo_bar"] }] []]
    else [])

/-- C6 scenario run: only `src/A.ts` declaring `export class A extends B`. -/
def fsC6 : FSRoot :=
  { path := "root", readable := true,
    entries := [FSNode.dir "src" true
      [FSNode.file "A.ts" (some "export class A extends B \x7b\x7d")]] }

/-- C6 scenario parse oracle. -/
def envC6 : Env :=
  mkEnv (fun p _ =>
    if p = "root/src/A.ts" then
      [DeclNode.classDecl (some "A") [{ isExtendsKw := true, types := ["B"] }] []]
    else [])

/-- C6 boundary run: a source directory literally named `external`, so the
stub package path is already taken. -/
def fsC6x : FSRoot :=
  { path := "root", readable := true,
    entries := [FSNode.dir "external" true
      [FSNode.file "C.ts" (some "export class C extends D \x7b\x7d")]] }

/-- C6 boundary parse oracle. -/
def envC6x : Env :=
  mkEnv (fun p _ =>
    if p = "root/external/C.ts" then
      [DeclNode.classDecl (some "C") [{ isExtendsKw := true, types := ["D"] }] []]
    else [])

/-- The C6 scenario snapshot. -/
def snapC6 : Snapshot :=
  exceptGetOk (generateUML envC6 fsC6 "root" defIncludes defExcludes)

/-- C8 sample content containing exactly one whole-word `if` and one
whole-word `for`. -/
def contentC8 : String :=
  "if (a) b = 1\nfor (x of xs) b += x"

/-- C8/C9 run: one file whose content exercises the metric and the import
extraction. -/
def fsC8 : FSRoot :=
  { path := "root", readable := true,
    entries := [FSNode.dir "src" true [FSNode.file "m.ts" (some contentC8)]] }

/-- The record analyzed from the C8 run. -/
def recC8 : ClassRecord :=
  exceptGetOk (analyzeFile envPlain fsC8 "root/src/m.ts" 0)

/-- C10 run: a single plain file with no unresolved references. -/
def fsC10 : FSRoot :=
  { path := "root", readable := true,
    entries := [FSNode.dir "src" true [FSNode.file "util.ts" (some "export const u = 1")]] }

/-- C9 sample content: two local imports resolving to the same base name and
one package-ecosystem import. -/
def contentC9 : String :=
  "import \x7b h \x7d from \"./util/helpers.js\"\n" ++
  "import React from \"react\"\n" ++
  "import \x7b g \x7d from \"./other/helpers.ts\"\n" ++
  "import x from \"/abs/mod.ts\""

/-- C9 run: one file with the sample imports. -/
def fsC9 : FSRoot :=
  { path := "root", readable := true,
    entries := [FSNode.dir "src" true [FSNode.file "n.ts" (some contentC9)]] }

/-- The record analyzed from the C9 run. -/
def recC9 : ClassRecord :=
  exceptGetOk (analyzeFile envPlain fsC9 "root/src/n.ts" 0)

/-- The C10 run snapshot produced by the TUI path. -/
def snapC10 : Snapshot :=
  (exceptGetOk (runAnalysis envPlain fsC10 defIncludes defExcludes)).getD default

/-! ### Theorems -/

example : pathExtname "a.mjs" = ".mjs" := by decide

example : pathExtname "src/foo.test.ts" = ".ts" := by decide

example : pathExtname ".bashrc" = "" := by decide

example : pathExtname "foo." = "." := by decide

example : pathBasename "./utils/helper.js" ".js" = "helper" := by decide

example : pathDirname "A.ts" = "." := by decide

example : pathDirname "src/A.ts" = "src" := by decide

example : relativeTo "root" "root/src/A.ts" = "src/A.ts" := by decide

example : jsTrim "  bar (x) \x7b" = "bar (x) \x7b" := by decide

example : containsSub "abc import React x" "import React" = true := by decide

theorem pfxOf_eq_append {k l : List Char} (h : pfxOf k l = true) :
    l = k ++ l.drop k.length := by
  induction k generalizing l with
  | nil => simp
  | cons a k ih =>
    cases l with
    | nil => simp [pfxOf] at h
    | cons b l =>
      simp only [pfxOf, Bool.and_eq_true, beq_iff_eq] at h
      obtain ⟨h1, h2⟩ := h
      subst h1
      simpa using ih h2

theorem kw_nonempty_word : ∀ k ∈ kwList, 1 ≤ k.length ∧ ∀ c ∈ k, jsWordChar c = true := by
  decide

/-- Positions strictly inside a run of word characters admit no whole-word
occurrence, so skipping a matched keyword loses no occurrences. -/
theorem cntPos_word_run {w r : List Char} (hw : ∀ c ∈ w, jsWordChar c = true) :
    cntPos true (w ++ r) = cntPos true r := by
  induction w with
  | nil => rfl
  | cons c w ih =>
    have hc : jsWordChar c = true := hw c (by simp)
    have hw' : ∀ a ∈ w, jsWordChar a = true := fun a ha => hw a (by simp [ha])
    simp [cntPos, hc, ih hw']

/-- The regex scan equals the positional whole-word count. -/
theorem scanKWAux_eq_cntPos :
    ∀ fuel prevW (l : List Char), l.length ≤ fuel → scanKWAux fuel prevW l = cntPos prevW l := by
  intro fuel
  induction fuel with
  | zero =>
    intro prevW l h
    have : l = [] := by
      cases l with
      | nil => rfl
      | cons c r => simp at h
    subst this
    rfl
  | succ fuel ih =>
    intro prevW l h
    cases l with
    | nil => rfl
    | cons c rest =>
      cases prevW with
      | true =>
        simp [scanKWAux, cntPos, ih (jsWordChar c) rest (by simpa using Nat.le_of_succ_le_succ h)]
      | false =>
        cases hk : kwAt (c :: rest) with
        | none =>
          simp [scanKWAux, cntPos, hk, ih (jsWordChar c) rest (by simpa using Nat.le_of_succ_le_succ h)]
        | some k =>
          have hk2 : List.find? (fun kk => pfxOf kk (c :: rest) && boundaryAfterKw kk (c :: rest))
              kwList = some k := hk
          have hmem : k ∈ kwList := List.mem_of_find?_eq_some hk2
          have hp := List.find?_some hk2
          simp only [Bool.and_eq_true] at hp
          obtain ⟨hk1, hkw⟩ := kw_nonempty_word k hmem
          -- decompose the keyword as head plus tail
          cases k with
          | nil => simp at hk1
          | cons a k1 =>
            have hpf := hp.1
            simp only [pfxOf, Bool.and_eq_true, beq_iff_eq] at hpf
            obtain ⟨hac, hpf1⟩ := hpf
            subst hac
            have hrest : rest = k1 ++ rest.drop k1.length := pfxOf_eq_append hpf1
            have hlen : (rest.drop k1.length).length ≤ fuel := by
              have h1 : rest.length ≤ fuel := by
                simp only [List.length_cons] at h
                exact Nat.le_of_succ_le_succ h
              have h2 : (rest.drop k1.length).length ≤ rest.length := by
                rw [List.length_drop]
                exact Nat.sub_le _ _
              exact Nat.le_trans h2 h1
            have hwc : jsWordChar a = true := hkw a (by simp)
            have hk1w : ∀ x ∈ k1, jsWordChar x = true := fun x hx => hkw x (by simp [hx])
            calc scanKWAux (fuel + 1) false (a :: rest)
                = 1 + scanKWAux fuel true (rest.drop k1.length) := by
                  simp [scanKWAux, hk]
              _ = 1 + cntPos true (rest.drop k1.length) := by
                  rw [ih true (rest.drop k1.length) hlen]
              _ = 1 + cntPos true rest := by
                  conv_rhs => rw [hrest]
                  rw [cntPos_word_run hk1w]
              _ = cntPos false (a :: rest) := by
                  simp [cntPos, hk, hwc]

/-- The code-side complexity count equals the whole-word occurrence count. -/
theorem countKeywords_eq_wholeWordCount (s : String) :
    countKeywords s = wholeWordCount s :=
  scanKWAux_eq_cntPos s.data.length false s.data (Nat.le_refl _)

example : countKeywords "no trigger keywords here at all" = 0 := by decide

example : countKeywords "justify elsewhere performance" = 0 := by decide

example : wholeWordCount "x = 1; if (x) begin loop-for x" = 2 := by decide

theorem buildDeps_loop_eq (specs : List String) :
    ∀ acc : List String,
      specs.foldl
        (fun acc sp =>
          if isLocalImport sp then
            let d := depName sp
            if d ∈ acc then acc else acc ++ [d]
          else acc)
        acc
      = acc ++ dedupKeepFirstAux acc ((specs.filter isLocalImport).map depName) := by
  induction specs with
  | nil => intro acc; simp [dedupKeepFirstAux]
  | cons sp tl ih =>
    intro acc
    by_cases hloc : isLocalImport sp = true
    · by_cases hmem : depName sp ∈ acc
      · simp [List.foldl_cons, hloc, hmem, ih, dedupKeepFirstAux]
      · simp [List.foldl_cons, hloc, hmem, ih, dedupKeepFirstAux, List.filter_cons,
          List.append_assoc]
    · simp [List.foldl_cons, hloc, ih]

/-- The dependency list computed by the `analyzeFile` loop equals the
specification pipeline. -/
theorem buildDeps_eq_depsSpec (specs : List String) :
    buildDeps specs = depsSpec specs := by
  simpa using buildDeps_loop_eq specs []

example :
    scanImports "import x from \"./util/helpers.js\"\nimport y from \"react\"" =
      ["./util/helpers.js", "react"] := by decide

example :
    buildDeps ["./util/helpers.js", "react", "./other/helpers.ts"] = ["helpers"] := by decide

example : exportMatch "export default function Foo() {}" = some "Foo" := by decide

example : extendsMatch "export class A extends B {}" = some "B" := by decide

example : implementsMatch "class A implements X, Y ..." = some "X, Y " := by decide

example : splitImplements "X, Y " = ["X", "Y"] := by decide

example : (scanMethods "function foo(a) ...\nconst bar = async (x) => x").length = 2 := by decide

example : methodNameOf "function foo" 0 = "foo" := by decide

example : methodNameOf "bar(x) \x7b" 3 = "x)" := by decide

theorem strData_inj {x y : String} (h : x.data = y.data) : x = y := by
  cases x; cases y; congr

theorem strAppend_cancel {p x y : String} (h : p ++ x = p ++ y) : x = y := by
  have h2 : p.data ++ x.data = p.data ++ y.data := congrArg String.data h
  exact strData_inj (List.append_cancel_left h2)

theorem component_ne_external (x y : String) :
    ("component_" ++ x) ≠ ("external_" ++ y) := by
  intro h
  have h2 := congrArg (fun s => s.data.head?) h
  have h3 : ("component_" ++ x).data.head? = some ('c') := rfl
  have h4 : ("external_" ++ y).data.head? = some ('e') := rfl
  simp only [h3, h4, Option.some.injEq] at h2
  exact absurd h2 (by decide)

theorem contains_mem {l : List String} {a : String} : l.contains a = true ↔ a ∈ l := by
  simp

theorem contains_false {l : List String} {a : String} : l.contains a = false ↔ a ∉ l := by
  rw [← contains_mem]
  cases l.contains a <;> simp

theorem mem_addNames {defined : List String} {ns : List String} :
    ∀ {acc : List String} {x : String},
      x ∈ addNames defined acc ns ↔
        x ∈ acc ∨ (x ∈ ns ∧ defined.contains x = false) := by
  induction ns with
  | nil => intro acc x; simp [addNames]
  | cons p tl ih =>
    intro acc x
    unfold addNames
    rw [List.foldl_cons]
    by_cases hdp : p ∈ defined
    · have hcond : (defined.contains p || acc.contains p) = true := by
        simp
        exact Or.inl hdp
      rw [if_pos hcond]
      have h1 := @ih acc x
      unfold addNames at h1
      rw [h1]
      constructor
      · rintro (hx | ⟨hxt, hxd⟩)
        · exact Or.inl hx
        · exact Or.inr ⟨List.mem_cons_of_mem _ hxt, hxd⟩
      · rintro (hx | ⟨hxm, hxd⟩)
        · exact Or.inl hx
        · rcases List.mem_cons.mp hxm with rfl | hxt
          · exact absurd hdp (contains_false.mp hxd)
          · exact Or.inr ⟨hxt, hxd⟩
    · by_cases hap : p ∈ acc
      · have hcond : (defined.contains p || acc.contains p) = true := by
          simp
          exact Or.inr hap
        rw [if_pos hcond]
        have h1 := @ih acc x
        unfold addNames at h1
        rw [h1]
        constructor
        · rintro (hx | ⟨hxt, hxd⟩)
          · exact Or.inl hx
          · exact Or.inr ⟨List.mem_cons_of_mem _ hxt, hxd⟩
        · rintro (hx | ⟨hxm, hxd⟩)
          · exact Or.inl hx
          · rcases List.mem_cons.mp hxm with rfl | hxt
            · exact Or.inl hap
            · exact Or.inr ⟨hxt, hxd⟩
      · have hcond : (defined.contains p || acc.contains p) = false := by
          simp
          exact ⟨hdp, hap⟩
        rw [if_neg (by rw [hcond]; exact Bool.false_ne_true)]
        have h1 := @ih (acc ++ [p]) x
        unfold addNames at h1
        rw [h1]
        constructor
        · rintro (hx | ⟨hxt, hxd⟩)
          · rcases List.mem_append.mp hx with hx1 | hx1
            · exact Or.inl hx1
            · have hxp : x = p := by simpa using hx1
              subst hxp
              exact Or.inr ⟨List.mem_cons_self _ _, contains_false.mpr hdp⟩
          · exact Or.inr ⟨List.mem_cons_of_mem _ hxt, hxd⟩
        · rintro (hx | ⟨hxm, hxd⟩)
          · exact Or.inl (List.mem_append.mpr (Or.inl hx))
          · rcases List.mem_cons.mp hxm with rfl | hxt
            · exact Or.inl (List.mem_append.mpr (Or.inr (by simp)))
            · exact Or.inr ⟨hxt, hxd⟩

theorem addNames_nodup {defined : List String} {ns : List String} :
    ∀ {acc : List String}, acc.Nodup → (addNames defined acc ns).Nodup := by
  induction ns with
  | nil => intro acc h; simpa [addNames] using h
  | cons p tl ih =>
    intro acc h
    unfold addNames
    rw [List.foldl_cons]
    by_cases hcond : (defined.contains p || acc.contains p) = true
    · rw [if_pos hcond]
      have := @ih acc h
      unfold addNames at this
      exact this
    · rw [if_neg hcond]
      have hap : p ∉ acc := by
        intro hp
        apply hcond
        simp
        exact Or.inr hp
      have hacc : (acc ++ [p]).Nodup := by
        simp [List.nodup_append, h, hap]
      have := @ih (acc ++ [p]) hacc
      unfold addNames at this
      exact this

theorem mem_extFold {defined : List String} {ds : List ClassRecord} :
    ∀ {acc : List String} {x : String},
      x ∈ ds.foldl
            (fun acc c => addNames defined (addNames defined acc c.«extends») c.«implements»)
            acc ↔
        x ∈ acc ∨
          ((∃ c ∈ ds, x ∈ c.«extends» ∨ x ∈ c.«implements») ∧ defined.contains x = false) := by
  induction ds with
  | nil => intro acc x; simp
  | cons d tl ih =>
    intro acc x
    rw [List.foldl_cons, @ih, mem_addNames, mem_addNames, List.exists_mem_cons_iff]
    constructor
    · rintro (((hx | ⟨he, hd⟩) | ⟨hi, hd⟩) | ⟨ht, hd⟩)
      · exact Or.inl hx
      · exact Or.inr ⟨Or.inl (Or.inl he), hd⟩
      · exact Or.inr ⟨Or.inl (Or.inr hi), hd⟩
      · exact Or.inr ⟨Or.inr ht, hd⟩
    · intro h
      rcases h with hx | ⟨hei, hd⟩
      · exact Or.inl (Or.inl (Or.inl hx))
      · rcases hei with (he | hi) | ht
        · exact Or.inl (Or.inl (Or.inr ⟨he, hd⟩))
        · exact Or.inl (Or.inr ⟨hi, hd⟩)
        · exact Or.inr ⟨ht, hd⟩

theorem extFold_nodup {defined : List String} {ds : List ClassRecord} :
    ∀ {acc : List String}, acc.Nodup →
      (ds.foldl
        (fun acc c => addNames defined (addNames defined acc c.«extends») c.«implements»)
        acc).Nodup := by
  induction ds with
  | nil => intro acc h; simpa using h
  | cons d tl ih =>
    intro acc h
    rw [List.foldl_cons]
    exact @ih _ (addNames_nodup (addNames_nodup h))

/-- Membership characterization of the unresolved external-name set: exactly
the names appearing in some record's extends or implements that equal no
record's name. -/
theorem buildExternalNames_mem {cs : List ClassRecord} {x : String} :
    x ∈ buildExternalNames cs ↔
      (∃ c ∈ cs, x ∈ c.«extends» ∨ x ∈ c.«implements») ∧ (∀ c ∈ cs, c.name ≠ x) := by
  unfold buildExternalNames
  rw [mem_extFold]
  simp only [List.not_mem_nil, false_or]
  constructor
  · rintro ⟨hex, hd⟩
    refine ⟨hex, ?_⟩
    intro c hc hne
    have : x ∈ cs.map (fun c => c.name) := by
      exact List.mem_map.mpr ⟨c, hc, hne⟩
    rw [contains_false] at hd
    exact hd this
  · rintro ⟨hex, hd⟩
    refine ⟨hex, ?_⟩
    rw [contains_false]
    intro hmem
    rcases List.mem_map.mp hmem with ⟨c, hc, hcn⟩
    exact hd c hc hcn

/-- The unresolved external-name set has no duplicates (it models a JS
`Set`). -/
theorem buildExternalNames_nodup (cs : List ClassRecord) :
    (buildExternalNames cs).Nodup := by
  unfold buildExternalNames
  exact extFold_nodup List.nodup_nil

theorem stubFold_classes (names : List String) :
    ∀ st : LoopState,
      (names.foldl stubStep st).classes = st.classes ++ names.map mkStub := by
  induction names with
  | nil => intro st; simp
  | cons nm tl ih =>
    intro st
    rw [List.foldl_cons, ih]
    simp [stubStep, List.append_assoc]

theorem stubStep_packages (st : LoopState) (nm : String) :
    (stubStep st nm).packages = st.packages.map (fun p =>
      if p.path = "external" then { p with classes := p.classes ++ [stubIdOf nm] } else p) := by
  rfl

theorem stubFold_packages (names : List String) :
    ∀ st : LoopState,
      (names.foldl stubStep st).packages = st.packages.map (fun p =>
        if p.path = "external" then { p with classes := p.classes ++ names.map stubIdOf }
        else p) := by
  induction names with
  | nil =>
    intro st
    simp only [List.foldl_nil, List.map_nil]
    have hfn : ∀ p ∈ st.packages,
        p = (if p.path = "external" then { p with classes := p.classes ++ [] } else p) := by
      intro p _
      by_cases h : p.path = "external"
      · rw [if_pos h, List.append_nil]
      · rw [if_neg h]
    conv_lhs => rw [← List.map_id st.packages]
    exact List.map_congr_left (fun p hp => hfn p hp)
  | cons nm tl ih =>
    intro st
    rw [List.foldl_cons, ih, stubStep_packages, List.map_map]
    apply List.map_congr_left
    intro p _
    by_cases h : p.path = "external"
    · simp [Function.comp, h, List.append_assoc]
    · simp [Function.comp, h]

/-- The class list after stub synthesis: the real records followed by one
stub per unresolved name, in set-insertion order. -/
theorem addStubs_classes (st : LoopState) :
    (addStubs st).classes = st.classes ++ (buildExternalNames st.classes).map mkStub := by
  unfold addStubs
  by_cases h : (buildExternalNames st.classes).isEmpty = true
  · rw [if_pos h]
    have : buildExternalNames st.classes = [] := by
      cases he : buildExternalNames st.classes with
      | nil => rfl
      | cons a tl => rw [he] at h; simp at h
    rw [this]
    simp
  · rw [if_neg h]
    rw [stubFold_classes]

/-- The package list after stub synthesis when no analyzed package already
has path `external`: the real packages followed by the lazily created
`External Libraries` package holding all stub ids. -/
theorem addStubs_packages_new (st : LoopState)
    (hne : buildExternalNames st.classes ≠ [])
    (hno : ∀ p ∈ st.packages, p.path ≠ "external") :
    (addStubs st).packages = st.packages ++
      [{ externalPackage with classes := (buildExternalNames st.classes).map stubIdOf }] := by
  unfold addStubs
  have hie : (buildExternalNames st.classes).isEmpty = false := by
    cases he : buildExternalNames st.classes with
    | nil => exact absurd he hne
    | cons a tl => rfl
  rw [if_neg (by rw [hie]; exact Bool.false_ne_true)]
  have hany : (st.packages.any (fun p => decide (p.path = "external"))) = false := by
    rw [List.any_eq_false]
    intro p hp
    simp [hno p hp]
  rw [hany]
  simp only [Bool.false_eq_true, if_false]
  rw [stubFold_packages]
  simp only [List.map_append]
  congr 1
  · conv_rhs => rw [← List.map_id st.packages]
    exact List.map_congr_left (fun p hp => by rw [if_neg (hno p hp)]; rfl)

/-- Fields of a successfully analyzed record, in terms of the file content. -/
theorem analyzeFile_ok_fields {env : Env} {fs : FSRoot} {f : String} {k : Nat}
    {c : String} {r : ClassRecord}
    (hc : readFileSyncM fs f = some c)
    (h : analyzeFile env fs f k = .ok r) :
    r.id = "component_" ++ env.rng k ∧
    r.isExternal = false ∧
    r.metrics.complexity = countKeywords c ∧
    r.complexityMetrics.cyclomaticComplexity = countKeywords c ∧
    r.dependencies = buildDeps (scanImports c) := by
  unfold analyzeFile at h
  rw [hc] at h
  dsimp only at h
  cases hp : parseWithTypeScript (isTsFile f) (env.ast f c) with
  | error e => rw [hp] at h; exact absurd h (by simp)
  | ok ts =>
    rw [hp] at h
    simp only [Except.ok.injEq] at h
    subst h
    exact ⟨rfl, rfl, rfl, rfl, rfl⟩

/-- A successful analysis implies a successful read. -/
theorem analyzeFile_ok_read {env : Env} {fs : FSRoot} {f : String} {k : Nat}
    {r : ClassRecord} (h : analyzeFile env fs f k = .ok r) :
    ∃ c, readFileSyncM fs f = some c := by
  cases hc : readFileSyncM fs f with
  | none =>
    unfold analyzeFile at h
    rw [hc] at h
    exact absurd h (by simp)
  | some c => exact ⟨c, rfl⟩

/-- Records produced by `analyzeFile` are never external. -/
theorem analyzeFile_isExternal {env : Env} {fs : FSRoot} {f : String} {k : Nat}
    {r : ClassRecord} (h : analyzeFile env fs f k = .ok r) : r.isExternal = false := by
  obtain ⟨c, hc⟩ := analyzeFile_ok_read h
  exact (analyzeFile_ok_fields hc h).2.1

/-- The id of a successfully analyzed record. -/
theorem analyzeFile_ok_id {env : Env} {fs : FSRoot} {f : String} {k : Nat}
    {r : ClassRecord} (h : analyzeFile env fs f k = .ok r) :
    r.id = "component_" ++ env.rng k := by
  obtain ⟨c, hc⟩ := analyzeFile_ok_read h
  exact (analyzeFile_ok_fields hc h).1

/-- Whether the analysis of a file succeeds does not depend on the
random-draw index. -/
theorem analyzeFile_isOk_indep (env : Env) (fs : FSRoot) (f : String) (k k2 : Nat) :
    (analyzeFile env fs f k).isOk = (analyzeFile env fs f k2).isOk := by
  unfold analyzeFile
  cases hc : readFileSyncM fs f with
  | none => rfl
  | some c =>
    dsimp only
    cases hp : parseWithTypeScript (isTsFile f) (env.ast f c) <;> rfl

/-- The class list produced by one loop step. -/
theorem genStep_classes (env : Env) (fs : FSRoot) (st : LoopState) (f : String) :
    (genStep env fs st f).classes =
      match analyzeFile env fs f st.rngIx with
      | .ok d => st.classes ++ [d]
      | .error _ => st.classes := by
  unfold genStep
  cases h : analyzeFile env fs f st.rngIx with
  | error e => rfl
  | ok d =>
    dsimp only
    split <;> rfl

/-- The draw index never decreases across a loop step. -/
theorem genStep_rngIx_le (env : Env) (fs : FSRoot) (st : LoopState) (f : String) :
    st.rngIx ≤ (genStep env fs st f).rngIx := by
  unfold genStep
  cases h : analyzeFile env fs f st.rngIx with
  | error e => exact Nat.le_refl _
  | ok d =>
    dsimp only
    split
    · exact Nat.le_succ _
    · exact Nat.le_trans (Nat.le_succ _) (Nat.le_succ _)

/-- A successful step consumes the current draw. -/
theorem genStep_rngIx_ok {env : Env} {fs : FSRoot} {st : LoopState} {f : String}
    {d : ClassRecord} (h : analyzeFile env fs f st.rngIx = .ok d) :
    st.rngIx + 1 ≤ (genStep env fs st f).rngIx := by
  unfold genStep
  rw [h]
  dsimp only
  split
  · exact Nat.le_refl _
  · exact Nat.le_succ _

/-- Every record after the loop was present before it or was produced by a
successful `analyzeFile` call on one of the files. -/
theorem analyzeLoop_classes_mem {env : Env} {fs : FSRoot} {files : List String} :
    ∀ {st : LoopState} {c : ClassRecord},
      c ∈ (analyzeLoop env fs files st).classes →
      c ∈ st.classes ∨ ∃ f ∈ files, ∃ k, analyzeFile env fs f k = .ok c := by
  induction files with
  | nil => intro st c h; exact Or.inl h
  | cons f tl ih =>
    intro st c h
    unfold analyzeLoop at h
    rw [List.foldl_cons] at h
    rcases @ih (genStep env fs st f) c h with hin | ⟨g, hg, k, hk⟩
    · rw [genStep_classes] at hin
      revert hin
      cases ha : analyzeFile env fs f st.rngIx with
      | error e => exact fun hin => Or.inl hin
      | ok d =>
        intro hin
        rcases List.mem_append.mp hin with hin | hin
        · exact Or.inl hin
        · have : c = d := by simpa using hin
          subst this
          exact Or.inr ⟨f, by simp, st.rngIx, ha⟩
    · exact Or.inr ⟨g, List.mem_cons_of_mem _ hg, k, hk⟩

/-- Records present before the loop are still present after it. -/
theorem analyzeLoop_classes_mono {env : Env} {fs : FSRoot} {files : List String} :
    ∀ {st : LoopState} {c : ClassRecord},
      c ∈ st.classes → c ∈ (analyzeLoop env fs files st).classes := by
  induction files with
  | nil => intro st c h; exact h
  | cons f tl ih =>
    intro st c h
    unfold analyzeLoop
    rw [List.foldl_cons]
    apply @ih (genStep env fs st f) c
    rw [genStep_classes]
    cases ha : analyzeFile env fs f st.rngIx with
    | error e => exact h
    | ok d => exact List.mem_append.mpr (Or.inl h)

/-- Every package after the loop has the package path of some record after
the loop, provided that held before the loop. -/
theorem analyzeLoop_packages_covered {env : Env} {fs : FSRoot} {files : List String} :
    ∀ {st : LoopState},
      (∀ p ∈ st.packages, ∃ c ∈ st.classes, c.package = p.path) →
      ∀ p ∈ (analyzeLoop env fs files st).packages,
        ∃ c ∈ (analyzeLoop env fs files st).classes, c.package = p.path := by
  induction files with
  | nil => intro st h; exact h
  | cons f tl ih =>
    intro st h
    unfold analyzeLoop
    rw [List.foldl_cons]
    apply @ih (genStep env fs st f)
    intro p hp
    unfold genStep at hp ⊢
    revert hp
    cases ha : analyzeFile env fs f st.rngIx with
    | error e =>
      intro hp
      exact h p hp
    | ok d =>
      dsimp only
      split
      · intro hp
        rcases List.mem_map.mp hp with ⟨q, hq, hqe⟩
        obtain ⟨c, hc, hcp⟩ := h q hq
        refine ⟨c, List.mem_append.mpr (Or.inl hc), ?_⟩
        subst hqe
        split <;> simpa using hcp
      · intro hp
        rcases List.mem_append.mp hp with hp | hp
        · obtain ⟨c, hc, hcp⟩ := h p hp
          exact ⟨c, List.mem_append.mpr (Or.inl hc), hcp⟩
        · have hpe := List.mem_singleton.mp hp
          subst hpe
          exact ⟨d, List.mem_append.mpr (Or.inr (by simp)), rfl⟩

/-- No record coming out of the loop is external. -/
theorem analyzeLoop_isExternal_false {env : Env} {fs : FSRoot} {files : List String}
    {st : LoopState} (h : ∀ c ∈ st.classes, c.isExternal = false) :
    ∀ c ∈ (analyzeLoop env fs files st).classes, c.isExternal = false := by
  intro c hc
  rcases analyzeLoop_classes_mem hc with hin | ⟨f, _, k, hk⟩
  · exact h c hin
  · exact analyzeFile_isExternal hk

/-- With pairwise-distinct random draws, the loop keeps record ids of the
`component_` shape with pairwise-distinct draw indices, hence pairwise
distinct. -/
theorem analyzeLoop_id_inv (env : Env) (fs : FSRoot)
    (hinj : ∀ i j, env.rng i = env.rng j → i = j) (files : List String) :
    ∀ {st : LoopState},
      (∀ c ∈ st.classes, ∃ k, k < st.rngIx ∧ c.id = "component_" ++ env.rng k) →
      (st.classes.map (fun c => c.id)).Nodup →
      (∀ c ∈ (analyzeLoop env fs files st).classes,
          ∃ k, k < (analyzeLoop env fs files st).rngIx ∧ c.id = "component_" ++ env.rng k) ∧
        ((analyzeLoop env fs files st).classes.map (fun c => c.id)).Nodup := by
  induction files with
  | nil => intro st h1 h2; exact ⟨h1, h2⟩
  | cons f tl ih =>
    intro st h1 h2
    unfold analyzeLoop
    rw [List.foldl_cons]
    apply @ih (genStep env fs st f)
    · intro c hc
      rw [genStep_classes] at hc
      revert hc
      cases ha : analyzeFile env fs f st.rngIx with
      | error e =>
        intro hc
        obtain ⟨k, hk, he⟩ := h1 c hc
        exact ⟨k, Nat.lt_of_lt_of_le hk (genStep_rngIx_le env fs st f), he⟩
      | ok d =>
        intro hc
        rcases List.mem_append.mp hc with hc | hc
        · obtain ⟨k, hk, he⟩ := h1 c hc
          exact ⟨k, Nat.lt_of_lt_of_le hk (genStep_rngIx_le env fs st f), he⟩
        · have hcd : c = d := by simpa using hc
          subst hcd
          exact ⟨st.rngIx,
            Nat.lt_of_lt_of_le (Nat.lt_succ_self _) (genStep_rngIx_ok ha),
            analyzeFile_ok_id ha⟩
    · rw [genStep_classes]
      revert h2
      cases ha : analyzeFile env fs f st.rngIx with
      | error e => exact fun h2 => h2
      | ok d =>
        intro h2
        rw [List.map_append, List.nodup_append]
        refine ⟨h2, by simp, ?_⟩
        intro a ha2 hb
        have had : a = d.id := by simpa using hb
        subst had
        rcases List.mem_map.mp ha2 with ⟨c, hcm, hce⟩
        obtain ⟨k, hk, he⟩ := h1 c hcm
        rw [hce] at he
        have he2 := (analyzeFile_ok_id ha).symm.trans he
        have := hinj _ _ (strAppend_cancel he2)
        omega

/-- The loop adds exactly one record per file whose analysis succeeds (and
success is independent of the draw index). -/
theorem analyzeLoop_classes_length (env : Env) (fs : FSRoot) (files : List String) :
    ∀ st : LoopState,
      (analyzeLoop env fs files st).classes.length =
        st.classes.length +
          (files.filter (fun f => (analyzeFile env fs f 0).isOk)).length := by
  induction files with
  | nil => intro st; simp [analyzeLoop]
  | cons f tl ih =>
    intro st
    unfold analyzeLoop
    rw [List.foldl_cons]
    have hfold : List.foldl (genStep env fs) (genStep env fs st f) tl
        = analyzeLoop env fs tl (genStep env fs st f) := rfl
    rw [hfold, ih (genStep env fs st f), genStep_classes, List.filter_cons]
    cases ha : analyzeFile env fs f st.rngIx with
    | ok d =>
      have hok : (analyzeFile env fs f 0).isOk = true := by
        rw [analyzeFile_isOk_indep env fs f 0 st.rngIx, ha]
        rfl
      rw [hok]
      simp
      omega
    | error e =>
      have hok : (analyzeFile env fs f 0).isOk = false := by
        rw [analyzeFile_isOk_indep env fs f 0 st.rngIx, ha]
        rfl
      rw [hok]
      simp

/-- The TUI loop step coincides with the CLI loop step (the source loops are
textually identical). -/
theorem tuiStep_eq_genStep : @tuiStep = @genStep := rfl

/-- Hence the loops coincide. -/
theorem tuiAnalyzeLoop_eq : @tuiAnalyzeLoop = @analyzeLoop := by
  funext env fs files st
  unfold tuiAnalyzeLoop analyzeLoop
  rw [tuiStep_eq_genStep]

/-- The metadata blocks coincide. -/
theorem tuiProjectMeta_eq : @tuiProjectMeta = @genProjectMeta := rfl

/-- Evaluation of `generateUML` once discovery has succeeded. -/
theorem generateUML_ok {env : Env} {fs : FSRoot} {pname : String}
    {includes excludes : List String} {files : List String}
    (hf : findSourceFiles fs includes excludes = .ok files) :
    generateUML env fs pname includes excludes = .ok {
      version := "6.0"
      generated := env.now
      project := {
        name := (genProjectMeta env fs pname).1
        description := (genProjectMeta env fs pname).2
        language := "JavaScript" }
      packages := (addStubs (analyzeLoop env fs files initLoopState)).packages
      classes := (addStubs (analyzeLoop env fs files initLoopState)).classes } := by
  unfold generateUML
  rw [hf]
  rfl

/-- Evaluation of `runAnalysis` once discovery has succeeded with a
non-empty file list. -/
theorem runAnalysis_ok {env : Env} {fs : FSRoot}
    {includes excludes : List String} {files : List String}
    (hf : findSourceFiles fs includes excludes = .ok files)
    (hne : files.isEmpty = false) :
    runAnalysis env fs includes excludes = .ok (some {
      version := "6.0"
      generated := env.now
      project := {
        name := (tuiProjectMeta env fs (pathBasename fs.path "")).1
        description := (tuiProjectMeta env fs (pathBasename fs.path "")).2
        language := "JavaScript" }
      packages := (tuiAnalyzeLoop env fs files initLoopState).packages
      classes := (tuiAnalyzeLoop env fs files initLoopState).classes }) := by
  unfold runAnalysis
  rw [hf]
  show (if files.isEmpty = true then _ else _) = _
  rw [hne]
  rfl

theorem mkEnv_rng_inj (ast : String → String → List DeclNode) :
    ∀ i j, (mkEnv ast).rng i = (mkEnv ast).rng j → i = j := by
  intro i j h
  have h2 : List.replicate i ('a') = List.replicate j ('a') := congrArg String.data h
  have h3 := congrArg List.length h2
  simpa using h3

/-! ### Claim theorems -/
/-- C1: the claim says a file directly in the project root yields a
ClassRecord with package `"root"` and a PackageRecord named `"root"`. The
code computes `path.dirname("A.ts") = "."`, which is truthy, so the dead
`|| "root"` fallbacks never fire: the record's package and the package
record's name and path are all `"."`. This theorem evaluates the embedded
code at the failing input (a root containing only `A.ts`). -/
theorem c1_root_package_dot :
    (generateUML envC1 fsC1 "root" [] []).map (fun s =>
      (s.classes.map (fun c => c.package), s.packages.map (fun p => (p.name, p.path)))) =
      .ok (["."], [(".", ".")]) ∧
    pathDirname (relativeTo fsC1.path "root/A.ts") = "." := by
  exact ⟨by decide, by decide⟩

/-- C2 counterexample: discovery over a root containing an unreadable,
non-excluded directory does not return normally — the `readdirSync` error
propagates out of `findSourceFiles` (and hence out of `generateUML`),
refuting the claim that unreadable directories are silently skipped and
never fatal. -/
theorem c2_counterexample :
    findSourceFiles fsC2 [] [] = .error () ∧
    generateUML envPlain fsC2 "root" [] [] = .error () := by
  exact ⟨by decide, by decide⟩

/-- C2 amended: the walk has no error handling, so an unreadable directory
that is not matched by an exclude pattern makes `findSourceFiles` propagate
the error (discovery is fatal there); an unreadable directory that is
excluded is skipped before being opened and causes no error. -/
theorem c2_amended (includes excludes : List String) (rootPath name : String)
    (children rest : List FSNode)
    (hexcl : excludes.any (fun pat => containsSub name pat) = false) :
    findSourceFiles
      { path := rootPath, readable := true,
        entries := FSNode.dir name false children :: rest } includes excludes
      = .error () ∧
    (∀ excludes2 : List String,
      excludes2.any (fun pat => containsSub name pat) = true →
      findSourceFiles
        { path := rootPath, readable := true,
          entries := FSNode.dir name false children :: rest } includes excludes2
      = findSourceFiles
        { path := rootPath, readable := true, entries := rest } includes excludes2) := by
  constructor
  · unfold findSourceFiles
    rw [if_pos rfl]
    unfold walkEntries
    simp only [nodeName, reduceIte, hexcl, Bool.false_eq_true, if_false]
    rfl
  · intro excludes2 hexcl2
    unfold findSourceFiles
    rw [if_pos rfl, if_pos rfl]
    unfold walkEntries
    simp only [nodeName, reduceIte, hexcl2, if_true]
    cases rest with
    | nil => rfl
    | cons e tl => rfl

/-- C2 amended witness: the concrete unreadable-directory run. -/
theorem c2_amended_witness :
    ((([] : List String)).any (fun pat => containsSub "secret" pat) = false) ∧
    (findSourceFiles
      { path := "root", readable := true,
        entries := FSNode.dir "secret" false [] :: [] } [] [] = .error ()) := by
  refine ⟨by decide, ?_⟩
  exact (c2_amended [] [] "root" "secret" [] [] (by decide)).1

/-- C3 counterexample: with one malformed (but readable) file next to two
valid files, `generateUML` does not skip the malformed file — the
error-tolerant parse still yields a record for it, so the output has three
ClassRecords, not the two the claim demands. -/
theorem c3_counterexample :
    (generateUML envC3 fsC3 "root" defIncludes defExcludes).map
        (fun s => s.classes.length) = .ok 3 ∧
    (generateUML envC3 fsC3 "root" defIncludes defExcludes).map
        (fun s => s.classes.length) ≠ .ok 2 ∧
    (generateUML envC3 fsC3 "root" defIncludes defExcludes).map
        (fun s => s.classes.map (fun c => c.name)) = .ok ["G1", "bad", "G2"] := by
  exact ⟨by decide, by decide, by decide⟩

/-- C3 amended: whenever discovery succeeds, `generateUML` returns normally,
and its record count is the number of files whose analysis succeeds (reading
throws, or the parse walk throws) plus the number of synthesized stubs; a
malformed-but-readable file whose tolerant parse yields declarations is
analyzed, not skipped. In the scenario of the claim the count is three. -/
theorem c3_amended (env : Env) (fs : FSRoot) (pname : String)
    (includes excludes files : List String)
    (hf : findSourceFiles fs includes excludes = .ok files) :
    ∃ snap, generateUML env fs pname includes excludes = .ok snap ∧
      snap.classes.length =
        (files.filter (fun f => (analyzeFile env fs f 0).isOk)).length +
          (buildExternalNames (analyzeLoop env fs files initLoopState).classes).length := by
  refine ⟨_, generateUML_ok hf, ?_⟩
  show (addStubs (analyzeLoop env fs files initLoopState)).classes.length = _
  rw [addStubs_classes, List.length_append, List.length_map,
    analyzeLoop_classes_length env fs files initLoopState]
  simp [initLoopState]

/-- C3 amended witness: the three-file run of the counterexample. -/
theorem c3_amended_witness :
    (findSourceFiles fsC3 defIncludes defExcludes =
      .ok ["root/src/good1.ts", "root/src/bad.ts", "root/src/good2.ts"]) ∧
    (∃ snap, generateUML envC3 fsC3 "root" defIncludes defExcludes = .ok snap ∧
      snap.classes.length =
        ((["root/src/good1.ts", "root/src/bad.ts", "root/src/good2.ts"].filter
            (fun f => (analyzeFile envC3 fsC3 f 0).isOk)).length +
          (buildExternalNames (analyzeLoop envC3 fsC3
            ["root/src/good1.ts", "root/src/bad.ts", "root/src/good2.ts"]
            initLoopState).classes).length)) :=
  ⟨by decide,
   c3_amended envC3 fsC3 "root" defIncludes defExcludes
     ["root/src/good1.ts", "root/src/bad.ts", "root/src/good2.ts"] (by decide)⟩

/-- C4: the claim says the test-existence flag is true iff the sibling with
`.test` inserted before the extension exists. The code replaces
`/\.(jsx?|tsx?)$/` with `.test$1`, whose capture group excludes the dot, so
for `X.ts` it checks `X.testts` (flag false despite a sibling `X.test.ts`),
and `.mjs` is not matched at all, so the file checks its own path (flag
true with no sibling). This theorem evaluates the code at both failing
inputs. -/
theorem c4_testExists_bug :
    testSiblingPath "root/src/X.ts" = "root/src/X.testts" ∧
    fsExists fsC4 "root/src/X.test.ts" = true ∧
    (analyzeFile envPlain fsC4 "root/src/X.ts" 0).map (fun r => r.testMetrics) =
      .ok (some { «exists» := false, coverage := 0 }) ∧
    testSiblingPath "root/a.mjs" = "root/a.mjs" ∧
    fsExists fsC4 "root/a.test.mjs" = false ∧
    (analyzeFile envPlain fsC4 "root/a.mjs" 1).map (fun r => r.testMetrics) =
      .ok (some { «exists» := true, coverage := 0 }) := by
  exact ⟨by decide, by decide, by decide, by decide, by decide, by decide⟩

/-- C5 counterexample: distinct unresolved names `Foo.Bar` and `foo_bar`
normalize to the same stub id `external_foo_bar`, so the output document
contains two ClassRecords with equal ids — the ids are not pairwise
distinct. -/
theorem c5_counterexample :
    (generateUML envC5 fsC5 "root" defIncludes defExcludes).map
        (fun s => s.classes.map (fun c => c.id)) =
      .ok ["component_", "component_aa", "external_foo_bar", "external_foo_bar"] ∧
    (generateUML envC5 fsC5 "root" defIncludes defExcludes).map
        (fun s => decide (s.classes.map (fun c => c.id)).Nodup) = .ok false := by
  exact ⟨by decide, by decide⟩

/-- C6 counterexample: when an analyzed source directory is literally named
`external`, the stubs are appended to that pre-existing package (named
`external`), and no package named `External Libraries` exists — refuting
the claim that all stubs are placed in a lazily-created package named
`External Libraries`. -/
theorem c6_counterexample :
    (generateUML envC6x fsC6x "root" [] []).map
        (fun s => ((s.classes.filter (fun c => c.isExternal)).map (fun c => c.name),
          s.packages.map (fun p => (p.name, p.path)))) =
      .ok (["D"], [("external", "external")]) ∧
    (generateUML envC6x fsC6x "root" [] []).map
        (fun s => s.packages.any (fun p => p.name = "External Libraries")) = .ok false := by
  exact ⟨by decide, by decide⟩

/-- With no unresolved names, the stub phase is the identity. -/
theorem addStubs_id (st : LoopState)
    (h : buildExternalNames st.classes = []) : addStubs st = st := by
  unfold addStubs
  rw [h]
  rfl

/-- A stub id never collides with a real record id (distinct prefixes). -/
theorem stubIdOf_ne_component (m x : String) :
    stubIdOf m ≠ "component_" ++ x := by
  intro h
  exact component_ne_external x
    (String.mk ((m.data.map (fun c => if c = '.' then '_' else c)).map Char.toLower)) h.symm

/-- Evaluation of `runAnalysis` when discovery finds no files: it returns `none`. -/
theorem runAnalysis_empty {env : Env} {fs : FSRoot} {includes excludes : List String}
    {files : List String}
    (hf : findSourceFiles fs includes excludes = .ok files)
    (he : files.isEmpty = true) :
    runAnalysis env fs includes excludes = .ok none := by
  unfold runAnalysis
  rw [hf]
  show (if files.isEmpty = true then _ else _) = _
  rw [he]
  rfl

/-- Propagation of a discovery failure through `generateUML`. -/
theorem generateUML_err {env : Env} {fs : FSRoot} {pname : String}
    {includes excludes : List String}
    (hf : findSourceFiles fs includes excludes = .error ()) :
    generateUML env fs pname includes excludes = .error () := by
  unfold generateUML
  rw [hf]
  rfl

/-- C7: within any `generateUML` output, the name of every synthesized stub
record differs from the name of every non-stub record — stubs are created
only for extends/implements names that match no analyzed record's name. -/
theorem c7_stub_names_fresh (env : Env) (fs : FSRoot) (pname : String)
    (includes excludes : List String) (snap : Snapshot)
    (h : generateUML env fs pname includes excludes = .ok snap) :
    ∀ s ∈ snap.classes, s.isExternal = true →
      ∀ r ∈ snap.classes, r.isExternal = false → s.name ≠ r.name := by
  cases hf : findSourceFiles fs includes excludes with
  | error e =>
    cases e
    rw [generateUML_err hf] at h
    exact absurd h (by simp)
  | ok files =>
    rw [generateUML_ok hf] at h
    simp only [Except.ok.injEq] at h
    subst h
    intro s hs hsx r hr hrx
    have hreal_ext : ∀ c ∈ (analyzeLoop env fs files initLoopState).classes,
        c.isExternal = false :=
      analyzeLoop_isExternal_false (by intro c hc; simp [initLoopState] at hc)
    have hs2 : s ∈ (addStubs (analyzeLoop env fs files initLoopState)).classes := hs
    have hr2 : r ∈ (addStubs (analyzeLoop env fs files initLoopState)).classes := hr
    rw [addStubs_classes] at hs2 hr2
    rcases List.mem_append.mp hs2 with hsr | hss
    · rw [hreal_ext s hsr] at hsx
      exact absurd hsx (by decide)
    · rcases List.mem_map.mp hss with ⟨m, hm, hme⟩
      subst hme
      rcases List.mem_append.mp hr2 with hrr | hrs
      · have hfresh := (buildExternalNames_mem.mp hm).2
        intro hne
        have hname : (mkStub m).name = m := rfl
        rw [hname] at hne
        exact hfresh r hrr hne.symm
      · rcases List.mem_map.mp hrs with ⟨m2, _, hme2⟩
        rw [← hme2] at hrx
        have : (mkStub m2).isExternal = true := rfl
        rw [this] at hrx
        exact absurd hrx (by decide)

/-- C7 witness: the scenario run with one real record and one stub. -/
theorem c7_witness :
    (generateUML envC6 fsC6 "root" defIncludes defExcludes = .ok snapC6) ∧
    (∀ s ∈ snapC6.classes, s.isExternal = true →
      ∀ r ∈ snapC6.classes, r.isExternal = false → s.name ≠ r.name) :=
  ⟨by decide,
   c7_stub_names_fresh envC6 fsC6 "root" defIncludes defExcludes snapC6 (by decide)⟩

/-- C8: the reported cyclomatic complexity equals the count of whole-word
occurrences of the keywords if/else/for/while/switch/case/catch anywhere in
the raw text (the left-to-right regex scan equals the positional count); a
keyword-free text yields 0, and a text with exactly one `if` and one `for`
yields 2, also as the record field. -/
theorem c8_cyclomatic_complexity :
    (∀ s : String, countKeywords s = wholeWordCount s) ∧
    (∀ (env : Env) (fs : FSRoot) (f : String) (k : Nat) (c : String) (r : ClassRecord),
      readFileSyncM fs f = some c → analyzeFile env fs f k = .ok r →
      r.metrics.complexity = wholeWordCount c ∧
      r.complexityMetrics.cyclomaticComplexity = wholeWordCount c) ∧
    wholeWordCount "plain text with none of the trigger words" = 0 ∧
    wholeWordCount contentC8 = 2 := by
  refine ⟨countKeywords_eq_wholeWordCount, ?_, by decide, by decide⟩
  intro env fs f k c r hc h
  obtain ⟨_, _, h3, h4, _⟩ := analyzeFile_ok_fields hc h
  rw [countKeywords_eq_wholeWordCount] at h3 h4
  exact ⟨h3, h4⟩

/-- C8 witness: the concrete one-`if`-one-`for` file reports complexity 2. -/
theorem c8_witness :
    (readFileSyncM fsC8 "root/src/m.ts" = some contentC8) ∧
    (analyzeFile envPlain fsC8 "root/src/m.ts" 0 = .ok recC8) ∧
    (recC8.metrics.complexity = wholeWordCount contentC8 ∧
     recC8.complexityMetrics.cyclomaticComplexity = wholeWordCount contentC8) ∧
    recC8.metrics.complexity = 2 :=
  ⟨by decide, by decide,
   c8_cyclomatic_complexity.2.1 envPlain fsC8 "root/src/m.ts" 0 contentC8 recC8
     (by decide) (by decide),
   by decide⟩

/-- C9: the dependencies list is exactly the captured import specifiers that
begin with `.` or `/`, reduced to base names (directory and extension
stripped), deduplicated in first-seen order; package-ecosystem specifiers
are excluded. The accumulation loop equals the
filter/map/dedup pipeline. -/
theorem c9_dependencies :
    (∀ specs : List String, buildDeps specs = depsSpec specs) ∧
    (∀ (env : Env) (fs : FSRoot) (f : String) (k : Nat) (c : String) (r : ClassRecord),
      readFileSyncM fs f = some c → analyzeFile env fs f k = .ok r →
      r.dependencies = depsSpec (scanImports c)) ∧
    depsSpec ["./util/helpers.js", "react", "/abs/mod.ts", "./other/helpers.ts"] =
      ["helpers", "mod"] := by
  refine ⟨buildDeps_eq_depsSpec, ?_, by decide⟩
  intro env fs f k c r hc h
  have h5 := (analyzeFile_ok_fields hc h).2.2.2.2
  rw [buildDeps_eq_depsSpec] at h5
  exact h5

/-- C9 witness: the concrete import-laden file. -/
theorem c9_witness :
    (readFileSyncM fsC9 "root/src/n.ts" = some contentC9) ∧
    (analyzeFile envPlain fsC9 "root/src/n.ts" 0 = .ok recC9) ∧
    (recC9.dependencies = depsSpec (scanImports contentC9)) ∧
    recC9.dependencies = ["helpers", "mod"] :=
  ⟨by decide, by decide,
   c9_dependencies.2.1 envPlain fsC9 "root/src/n.ts" 0 contentC9 recC9
     (by decide) (by decide),
   by decide⟩

/-- C5 amended: the output ids are pairwise distinct provided (a) the random
tokens drawn during the run are pairwise distinct and (b) the stub-id
normalization (dots to underscores, lowercasing) is injective on the
unresolved-name set. Real ids use distinct draws under the `component_`
prefix, stub ids are the normalized names under the `external_` prefix, and
the prefixes never collide. (The counterexample shows (b) is necessary.) -/
theorem c5_amended (env : Env) (fs : FSRoot) (pname : String)
    (includes excludes files : List String) (snap : Snapshot)
    (hinj : ∀ i j, env.rng i = env.rng j → i = j)
    (hf : findSourceFiles fs includes excludes = .ok files)
    (h : generateUML env fs pname includes excludes = .ok snap)
    (hstub : ∀ n ∈ buildExternalNames (analyzeLoop env fs files initLoopState).classes,
      ∀ m ∈ buildExternalNames (analyzeLoop env fs files initLoopState).classes,
      stubIdOf n = stubIdOf m → n = m) :
    (snap.classes.map (fun c => c.id)).Nodup := by
  rw [generateUML_ok hf] at h
  simp only [Except.ok.injEq] at h
  subst h
  show ((addStubs (analyzeLoop env fs files initLoopState)).classes.map
    (fun c => c.id)).Nodup
  rw [addStubs_classes, List.map_append, List.map_map]
  have hcomp : ((fun c : ClassRecord => c.id) ∘ mkStub) = stubIdOf := rfl
  rw [hcomp]
  obtain ⟨hforms, hnodup⟩ := @analyzeLoop_id_inv env fs hinj files initLoopState
    (by intro c hc; simp [initLoopState] at hc)
    (by simp [initLoopState])
  rw [List.nodup_append]
  refine ⟨hnodup, (buildExternalNames_nodup _).map_on
    (fun n hn m hm he => hstub n hn m hm he), ?_⟩
  intro a ha hb
  rcases List.mem_map.mp ha with ⟨c, hc, hce⟩
  obtain ⟨k, _, he⟩ := hforms c hc
  rcases List.mem_map.mp hb with ⟨m, _, hme⟩
  rw [← hce, he] at hme
  exact stubIdOf_ne_component m (env.rng k) hme

/-- C5 amended witness: the scenario run, whose single stub makes the
injectivity side conditions hold, has pairwise-distinct ids. -/
theorem c5_amended_witness :
    (findSourceFiles fsC6 defIncludes defExcludes = .ok ["root/src/A.ts"]) ∧
    (generateUML envC6 fsC6 "root" defIncludes defExcludes = .ok snapC6) ∧
    (snapC6.classes.map (fun c => c.id)).Nodup :=
  ⟨by decide, by decide,
   c5_amended envC6 fsC6 "root" defIncludes defExcludes ["root/src/A.ts"] snapC6
     (mkEnv_rng_inj _) (by decide) (by decide)
     (by decide)⟩

/-- C6 amended: for every name appearing in some analyzed record's extends
or implements that matches no analyzed record's name, `generateUML`
synthesizes exactly one stub record with `isExternal = true`, empty
methods/fields/dependencies/extends/implements, `metrics.lines = 75`,
threat level `"EXTERNAL"` and package path `"external"`; all stubs share
the one package with path `"external"`, which is created lazily with name
`"External Libraries"` when no analyzed package already has that path (the
counterexample shows the pre-existing package is reused otherwise). The
claim's concrete scenario holds verbatim. -/
theorem c6_amended :
    (∀ (env : Env) (fs : FSRoot) (pname : String)
      (includes excludes files : List String) (snap : Snapshot),
      findSourceFiles fs includes excludes = .ok files →
      generateUML env fs pname includes excludes = .ok snap →
      (∀ nm : String,
        (∃ c ∈ (analyzeLoop env fs files initLoopState).classes,
            nm ∈ c.«extends» ∨ nm ∈ c.«implements») →
        (∀ c ∈ (analyzeLoop env fs files initLoopState).classes, c.name ≠ nm) →
        ((snap.classes.filter (fun c => c.isExternal && c.name == nm)).length = 1 ∧
         ∀ c ∈ snap.classes, c.isExternal = true → c.name = nm →
           c.methods = [] ∧ c.fields = [] ∧ c.dependencies = [] ∧
           c.«extends» = [] ∧ c.«implements» = [] ∧ c.metrics.lines = 75 ∧
           c.complexityMetrics.threatLevel = "EXTERNAL" ∧ c.package = "external")) ∧
      (buildExternalNames (analyzeLoop env fs files initLoopState).classes ≠ [] →
        (∀ p ∈ (analyzeLoop env fs files initLoopState).packages, p.path ≠ "external") →
        snap.packages = (analyzeLoop env fs files initLoopState).packages ++
          [{ id := "package_external", name := "External Libraries", path := "external",
             classes := (buildExternalNames
               (analyzeLoop env fs files initLoopState).classes).map stubIdOf }])) ∧
    ((generateUML envC6 fsC6 "root" defIncludes defExcludes).map (fun s =>
        s.classes.map (fun c => (c.name, c.«extends», c.isExternal))) =
      .ok [("A", ["B"], false), ("B", [], true)]) ∧
    ((generateUML envC6 fsC6 "root" defIncludes defExcludes).map (fun s =>
        s.classes.map (fun c =>
          (c.package, c.metrics.lines, c.complexityMetrics.threatLevel))) =
      .ok [("src", 1, "LOW"), ("external", 75, "EXTERNAL")]) ∧
    ((generateUML envC6 fsC6 "root" defIncludes defExcludes).map (fun s =>
        (s.packages.map (fun p => (p.name, p.path)), s.packages.length)) =
      .ok ([("src", "src"), ("External Libraries", "external")], 2)) := by
  constructor
  · intro env fs pname includes excludes files snap hf h
    rw [generateUML_ok hf] at h
    simp only [Except.ok.injEq] at h
    subst h
    have hreal_ext : ∀ c ∈ (analyzeLoop env fs files initLoopState).classes,
        c.isExternal = false :=
      analyzeLoop_isExternal_false (by intro c hc; simp [initLoopState] at hc)
    constructor
    · intro nm hex hnot
      have hmem : nm ∈ buildExternalNames (analyzeLoop env fs files initLoopState).classes :=
        buildExternalNames_mem.mpr ⟨hex, hnot⟩
      constructor
      · show (((addStubs (analyzeLoop env fs files initLoopState)).classes).filter
          (fun c => c.isExternal && c.name == nm)).length = 1
        rw [addStubs_classes, List.filter_append]
        have hnilreal : ((analyzeLoop env fs files initLoopState).classes.filter
            (fun c => c.isExternal && c.name == nm)) = [] := by
          rw [List.filter_eq_nil_iff]
          intro c hc
          rw [hreal_ext c hc]
          simp
        rw [hnilreal, List.nil_append, List.filter_map]
        have hpred : ((fun c : ClassRecord => c.isExternal && c.name == nm) ∘ mkStub)
            = (fun m => m == nm) := by
          funext m
          simp [Function.comp, mkStub]
        rw [hpred, List.length_map]
        have hcount : (List.filter (fun m => m == nm)
            (buildExternalNames (analyzeLoop env fs files initLoopState).classes)).length
            = List.count nm (buildExternalNames
                (analyzeLoop env fs files initLoopState).classes) := by
          rw [List.count, List.countP_eq_length_filter]
        rw [hcount]
        exact List.count_eq_one_of_mem (buildExternalNames_nodup _) hmem
      · intro c hc hext hname
        have hc2 : c ∈ (addStubs (analyzeLoop env fs files initLoopState)).classes := hc
        rw [addStubs_classes] at hc2
        rcases List.mem_append.mp hc2 with hcr | hcs
        · rw [hreal_ext c hcr] at hext
          exact absurd hext (by decide)
        · rcases List.mem_map.mp hcs with ⟨m, _, hme⟩
          subst hme
          exact ⟨rfl, rfl, rfl, rfl, rfl, rfl, rfl, rfl⟩
    · intro hne hno
      show (addStubs (analyzeLoop env fs files initLoopState)).packages = _
      exact addStubs_packages_new _ hne hno
  · exact ⟨by decide, by decide, by decide⟩

/-- C6 amended witness: the scenario run instantiating the general part at
the unresolved name `B`. -/
theorem c6_amended_witness :
    (findSourceFiles fsC6 defIncludes defExcludes = .ok ["root/src/A.ts"]) ∧
    (generateUML envC6 fsC6 "root" defIncludes defExcludes = .ok snapC6) ∧
    ((snapC6.classes.filter (fun c => c.isExternal && c.name == "B")).length = 1 ∧
     ∀ c ∈ snapC6.classes, c.isExternal = true → c.name = "B" →
       c.methods = [] ∧ c.fields = [] ∧ c.dependencies = [] ∧
       c.«extends» = [] ∧ c.«implements» = [] ∧ c.metrics.lines = 75 ∧
       c.complexityMetrics.threatLevel = "EXTERNAL" ∧ c.package = "external") :=
  ⟨by decide, by decide,
   (c6_amended.1 envC6 fsC6 "root" defIncludes defExcludes ["root/src/A.ts"] snapC6
     (by decide) (by decide)).1 "B" (by decide) (by decide)⟩

/-- C10: the TUI analysis path performs no external-reference resolution:
every record of its snapshot is a successful `analyzeFile` result on a
discovered file and is never external, every package comes from grouping
those records, and — with the same oracles — its output coincides with
`generateUML`'s (wrapped in `some`) exactly when no extends/implements name
is unresolved. -/
theorem c10_tui_no_stubs :
    (∀ (env : Env) (fs : FSRoot) (includes excludes files : List String) (snap : Snapshot),
      findSourceFiles fs includes excludes = .ok files →
      runAnalysis env fs includes excludes = .ok (some snap) →
      (∀ c ∈ snap.classes,
        (∃ f ∈ files, ∃ k, analyzeFile env fs f k = .ok c) ∧ c.isExternal = false) ∧
      (∀ p ∈ snap.packages, ∃ c ∈ snap.classes, c.package = p.path)) ∧
    (∀ (env : Env) (fs : FSRoot) (includes excludes files : List String),
      findSourceFiles fs includes excludes = .ok files →
      files.isEmpty = false →
      ((buildExternalNames (analyzeLoop env fs files initLoopState).classes = [] →
        runAnalysis env fs includes excludes =
          (generateUML env fs (pathBasename fs.path "") includes excludes).map some) ∧
       (buildExternalNames (analyzeLoop env fs files initLoopState).classes ≠ [] →
        runAnalysis env fs includes excludes ≠
          (generateUML env fs (pathBasename fs.path "") includes excludes).map some))) := by
  constructor
  · intro env fs includes excludes files snap hf hr
    cases hemp : files.isEmpty with
    | true =>
      rw [runAnalysis_empty hf hemp] at hr
      exact absurd hr (by simp)
    | false =>
      rw [runAnalysis_ok hf hemp] at hr
      simp only [Except.ok.injEq, Option.some.injEq] at hr
      subst hr
      constructor
      · intro c hc
        have hc2 : c ∈ (tuiAnalyzeLoop env fs files initLoopState).classes := hc
        rw [tuiAnalyzeLoop_eq] at hc2
        have hm := analyzeLoop_classes_mem hc2
        rcases hm with hin | hex
        · simp [initLoopState] at hin
        · refine ⟨hex, ?_⟩
          rcases hex with ⟨f, _, k, hk⟩
          exact analyzeFile_isExternal hk
      · intro p hp
        have hp2 : p ∈ (tuiAnalyzeLoop env fs files initLoopState).packages := hp
        rw [tuiAnalyzeLoop_eq] at hp2
        have := analyzeLoop_packages_covered
          (by intro q hq; simp [initLoopState] at hq) p hp2
        rcases this with ⟨c, hc, hcp⟩
        refine ⟨c, ?_, hcp⟩
        show c ∈ (tuiAnalyzeLoop env fs files initLoopState).classes
        rw [tuiAnalyzeLoop_eq]
        exact hc
  · intro env fs includes excludes files hf hne
    constructor
    · intro hext
      rw [runAnalysis_ok hf hne, generateUML_ok hf]
      rw [tuiAnalyzeLoop_eq, tuiProjectMeta_eq,
        addStubs_id (analyzeLoop env fs files initLoopState) hext]
      rfl
    · intro hext heq
      rw [runAnalysis_ok hf hne, generateUML_ok hf] at heq
      simp only [Except.map, Except.ok.injEq, Option.some.injEq] at heq
      have hcl := congrArg Snapshot.classes heq
      simp only at hcl
      rw [tuiAnalyzeLoop_eq, addStubs_classes] at hcl
      have hlen := congrArg List.length hcl
      rw [List.length_append, List.length_map] at hlen
      have : (buildExternalNames (analyzeLoop env fs files initLoopState).classes).length = 0 := by
        omega
      exact hext (List.length_eq_zero.mp this)

/-- C10 witness: a run with no unresolved names, where the snapshot has no
external records and coincides with the `generateUML` output. -/
theorem c10_witness :
    (findSourceFiles fsC10 defIncludes defExcludes = .ok ["root/src/util.ts"]) ∧
    (runAnalysis envPlain fsC10 defIncludes defExcludes = .ok (some snapC10)) ∧
    ((∀ c ∈ snapC10.classes,
        (∃ f ∈ ["root/src/util.ts"], ∃ k, analyzeFile envPlain fsC10 f k = .ok c) ∧
        c.isExternal = false) ∧
     (∀ p ∈ snapC10.packages, ∃ c ∈ snapC10.classes, c.package = p.path)) ∧
    (runAnalysis envPlain fsC10 defIncludes defExcludes =
      (generateUML envPlain fsC10 (pathBasename fsC10.path "") defIncludes
        defExcludes).map some) :=
  ⟨by decide, by decide,
   c10_tui_no_stubs.1 envPlain fsC10 defIncludes defExcludes ["root/src/util.ts"] snapC10
     (by decide) (by decide),
   (c10_tui_no_stubs.2 envPlain fsC10 defIncludes defExcludes ["root/src/util.ts"]
     (by decide) (by decide)).1 (by decide)⟩
